import Mathlib

/-!
Verification model of the `kvs` crate (`src/kvs/src/lib.rs`, `src/kvs/src/error.rs`):
a log-structured key-value store with an in-memory index, a stale-record counter,
startup replay and online compaction.

Modelling conventions:
* The on-disk log is a `DbFile`: the list of complete records it contains, in file
  order, plus a count of trailing bytes that do not decode to a record (`garbage`;
  `garbage = 0` is the clean end-of-log of §4.1 of the engine's documentation).
* The record codec (`serde_asn1_der`) is a third-party crate, treated as a black
  box exactly as the store does: each record `r` occupies `sz r` bytes, and decoding
  from the first byte of a record yields that record.  `sz` is an arbitrary
  size function; theorems that need it assume every record has positive size.
* Byte offsets are `Nat` (the Rust `u64` values never wrap in the source: the store
  asserts `index.len() < u64::MAX` and offsets are genuine file positions).
* `HashMap<K, u64>` is modelled as an association list with unique keys;
  `insertIdx` replaces in place (like `HashMap::insert`) and `eraseIdx` removes.
* The f64 comparison `stale_count as f64 / index.len() as f64 >= fraction` is
  modelled over `ℚ` (exact for the magnitudes the store can reach).
* `uuid::Uuid::new_v4` is modelled by a counter carried in the store state; a
  fresh name is minted from the counter and the counter is bumped.
* Fallible I/O: encode failures are injected through explicit fault flags
  (`efail` for a single append, `wfail` for the compaction rewrites); decode
  failures arise from `garbage`.  The happy path sets every fault flag to false.
* Mutating Rust methods become functions returning the result together with the
  updated store; operations that create or delete files besides the active log
  additionally return the list of those leftover files as they stand on return.
-/

set_option linter.unusedSectionVars false
set_option linter.unnecessarySimpa false

namespace KvsModel

/-- `ErrorKind` of `src/kvs/src/error.rs`. -/
inductive ErrorKind where
  | IoError
  | KeyNotPresent
  | UnknownError
deriving DecidableEq, Repr

/-- `Record<K, V>` of `src/kvs/src/lib.rs`: `db_key` is the byte offset the record
was written at, `value = none` is a tombstone. -/
structure Record (K V : Type) where
  db_key : Nat
  key : K
  value : Option V
deriving DecidableEq, Repr

/-- Contents of one on-disk log file: the complete records in file order, plus the
number of trailing bytes that do not decode to a record (0 = clean end-of-log). -/
structure DbFile (K V : Type) where
  recs : List (Record K V)
  garbage : Nat
deriving DecidableEq, Repr

/-- A file path, split as the store uses it: directory, file stem, extension. -/
structure DbPath where
  dir : String
  stem : String
  ext : String
deriving DecidableEq, Repr

variable {K V : Type} [DecidableEq K]

/-- `HashMap::get` on the association-list model of the index. -/
def lookupIdx : List (K × Nat) → K → Option Nat
  | [], _ => none
  | (k1, v) :: t, k => if k1 = k then some v else lookupIdx t k

/-- `HashMap::insert` on the association-list model: replace in place or append. -/
def insertIdx : List (K × Nat) → K → Nat → List (K × Nat)
  | [], k, v => [(k, v)]
  | (k1, v1) :: t, k, v => if k1 = k then (k, v) :: t else (k1, v1) :: insertIdx t k v

/-- `HashMap::remove` on the association-list model. -/
def eraseIdx : List (K × Nat) → K → List (K × Nat)
  | [], _ => []
  | (k1, v1) :: t, k => if k1 = k then t else (k1, v1) :: eraseIdx t k

/-- The index model has each key at most once (the `HashMap` representation
invariant). -/
def nodupKeys : List (K × Nat) → Bool
  | [] => true
  | (k, _) :: t => !(lookupIdx t k).isSome && nodupKeys t

variable (sz : Record K V → Nat)

/-- Number of bytes occupied by a list of consecutively encoded records. -/
def encSize (rs : List (Record K V)) : Nat := (rs.map sz).sum

/-- Total byte length of a log file (records plus trailing garbage). -/
def fileSize (f : DbFile K V) : Nat := encSize sz f.recs + f.garbage

/-- Decode one record from byte offset `o` of a record list laid out from `base`:
succeeds exactly when `o` is the first byte of one of the records. -/
def decodeRecAt : List (Record K V) → Nat → Nat → Option (Record K V)
  | [], _, _ => none
  | r :: rs, base, o => if base = o then some r else decodeRecAt rs (base + sz r) o

/-- `File::set_len` on a record list: keep the longest record prefix that fits in
`n` bytes; the remaining `n - <prefix size>` bytes no longer decode. -/
def setLenRecs : List (Record K V) → Nat → List (Record K V) × Nat
  | [], n => ([], n)
  | r :: rs, n =>
    if sz r ≤ n then
      let t := setLenRecs rs (n - sz r)
      (r :: t.1, t.2)
    else ([], n)

/-- `writer.get_mut().set_len(n)` applied to a log file. -/
def setLen (f : DbFile K V) (n : Nat) : DbFile K V :=
  let t := setLenRecs sz f.recs n
  ⟨t.1, t.2⟩

/-- `write_record_to_writer` of `src/kvs/src/lib.rs`: on encode success append the
record and flush; on encode failure seek back to `rec.db_key`, truncate the file
to that length, and surface `IoError`.  `efail` injects the encode failure. -/
def write_record_to_writer (efail : Bool) (r0 : Record K V) (f : DbFile K V) :
    Except ErrorKind Unit × DbFile K V :=
  if efail then (Except.error ErrorKind.IoError, setLen sz f r0.db_key)
  else (Except.ok (), ⟨f.recs ++ [r0], f.garbage⟩)

/-- `KvStore<K, V>` of `src/kvs/src/lib.rs`.  The buffered reader/writer pair is
represented by the file contents (`file`); the reader's seek position is never
observable because every read seeks first.  `uuid_counter` models the uuid
source used to mint fresh file names. -/
structure KvStore (K V : Type) where
  index : List (K × Nat)
  stale_count : Nat
  file_path : DbPath
  file : DbFile K V
  stale_fraction_for_compaction : ℚ
  min_records_before_compaction : Nat
  uuid_counter : Nat
deriving DecidableEq, Repr

/-- `KvStore::read_next_record`, reading at byte position `pos`: a decoded record,
or clean end-of-log (`none`) when no bytes remain, or `IoError` when the next
bytes are a structural decode failure.  The codec's end-of-input sentinel is the
`Asn1DerError` variant the source matches on. -/
def KvStore.read_next_record (f : DbFile K V) (pos : Nat) :
    Except ErrorKind (Option (Record K V)) :=
  match decodeRecAt sz f.recs 0 pos with
  | some r => Except.ok (some r)
  | none => if fileSize sz f ≤ pos then Except.ok none else Except.error ErrorKind.IoError

/-- `KvStore::read_next_record_value`: the value of the next record; anything but
a decoded record (including clean end-of-log) is `IoError`. -/
def KvStore.read_next_record_value (f : DbFile K V) (pos : Nat) :
    Except ErrorKind (Option V) :=
  match KvStore.read_next_record sz f pos with
  | Except.ok (some r) => Except.ok r.value
  | _ => Except.error ErrorKind.IoError

/-- `KvStore::get`: look up the key's offset; absent keys give `Ok(None)`; present
keys seek the reader and decode one record. -/
def KvStore.get (s : KvStore K V) (key : K) : Except ErrorKind (Option V) :=
  match lookupIdx s.index key with
  | some db_key => KvStore.read_next_record_value sz s.file db_key
  | none => Except.ok none

/-- `KvStore::build_output_record`: the writer's current stream position (end of
the flushed file) becomes the record's `db_key`. -/
def KvStore.build_output_record (s : KvStore K V) (key : K) (value : Option V) :
    Record K V :=
  { db_key := fileSize sz s.file, key := key, value := value }

/-- `KvStore::write_record_to_db`. -/
def KvStore.write_record_to_db (efail : Bool) (s : KvStore K V) (r0 : Record K V) :
    Except ErrorKind Unit × KvStore K V :=
  let t := write_record_to_writer sz efail r0 s.file
  (t.1, { s with file := t.2 })

/-- One step of the replay loop in `KvStore::load_index`: a write inserts the key
(counting a displaced prior entry as stale), a tombstone deletes the key and
counts as stale. -/
def replayStep (acc : List (K × Nat) × Nat) (r : Record K V) : List (K × Nat) × Nat :=
  match r.value with
  | some _ =>
    if (lookupIdx acc.1 r.key).isSome then (insertIdx acc.1 r.key r.db_key, acc.2 + 1)
    else (insertIdx acc.1 r.key r.db_key, acc.2)
  | none => (eraseIdx acc.1 r.key, acc.2 + 1)

/-- The replay loop of `KvStore::load_index` over a whole record list, starting
from the empty index and zero stale count (the state `open` starts from). -/
def replayFold (rs : List (Record K V)) : List (K × Nat) × Nat :=
  rs.foldl replayStep ([], 0)

/-- `KvStore::load_index`: replay the log from offset 0 until clean end-of-log;
a structural decode failure (trailing garbage) aborts with `IoError`. -/
def KvStore.load_index (f : DbFile K V) :
    Except ErrorKind (List (K × Nat) × Nat) :=
  if f.garbage = 0 then Except.ok (replayFold f.recs) else Except.error ErrorKind.IoError

/-- Lowercase hex digit. -/
def hexDigit (n : Nat) : Char :=
  if n < 10 then Char.ofNat (48 + n) else Char.ofNat (87 + n)

/-- A 32-character lowercase hex rendering of `n`: the simple form of a uuid, as
`uuid::Uuid::new_v4().to_simple()` produces (the counter models the v4 source). -/
def hex32 (n : Nat) : String :=
  String.mk ((List.range 32).map fun i => hexDigit (n / 16 ^ (31 - i) % 16))

/-- `make_db_log_path`: `dir/kvsdb-<uuid>.log` minted from the uuid counter. -/
def make_db_log_path (dir : String) (n : Nat) : DbPath :=
  ⟨dir, "kvsdb-" ++ hex32 n, "log"⟩

/-- `make_next_db_log_path`: a sibling `kvsdb-<fresh uuid>.compact` path in the
directory of the existing path. -/
def make_next_db_log_path (p : DbPath) (n : Nat) : DbPath :=
  ⟨p.dir, "kvsdb-" ++ hex32 n, "compact"⟩

/-- Delete the file at path `p` from a directory listing. -/
def removeFileL (p : DbPath) (l : List (DbPath × DbFile K V)) :
    List (DbPath × DbFile K V) :=
  l.filter fun e => decide (e.1 ≠ p)

/-- `KvStore::replace_reader_writer_index_file`: swap the reader/writer pair
(our file contents), index and path with the supplied replacements and hand the
previous four back. -/
def KvStore.replace_reader_writer_index_file (s : KvStore K V) (f : DbFile K V)
    (idx : List (K × Nat)) (p : DbPath) :
    KvStore K V × (DbFile K V × List (K × Nat) × DbPath) :=
  ({ s with file := f, index := idx, file_path := p }, (s.file, s.index, s.file_path))

/-- The record-copy loop of
`KvStore::copy_active_records_to_compaction_file_and_update_indexes`: walk the
old records; a record is rewritten exactly when the index maps its key to its
`db_key`; the rewrite gets the compaction writer's position as its new `db_key`
and the new index records that position.  `wfail i` injects an encode failure on
the `i`-th rewrite (which, per `write_record_to_writer`, truncates the partial
bytes away before the error surfaces). -/
def walkRecords (wfail : Nat → Bool) (index : List (K × Nat)) :
    List (Record K V) → List (Record K V) → List (K × Nat) → Nat →
    Option ErrorKind × List (Record K V) × List (K × Nat)
  | [], out, nidx, _ => (none, out, nidx)
  | r :: rs, out, nidx, i =>
    if lookupIdx index r.key = some r.db_key then
      if wfail i then (some ErrorKind.IoError, out, nidx)
      else
        let p := encSize sz out
        walkRecords wfail index rs (out ++ [{ db_key := p, key := r.key, value := r.value }])
          (insertIdx nidx r.key p) (i + 1)
    else walkRecords wfail index rs out nidx i

/-- `KvStore::copy_active_records_to_compaction_file_and_update_indexes`: open the
compaction file (truncating), seek the old reader to 0, copy every live record,
then swap reader/writer/index/path and return the displaced ones.  An error
(injected write fault, or the structural decode failure after the last complete
record when the old file has garbage) is returned together with the partial
compaction-file contents written so far. -/
def KvStore.copy_active_records_to_compaction_file_and_update_indexes
    (wfail : Nat → Bool) (s : KvStore K V) (compact_file_path : DbPath) :
    Except (ErrorKind × DbFile K V) (KvStore K V × (DbFile K V × List (K × Nat) × DbPath)) :=
  let t := walkRecords sz wfail s.index s.file.recs [] [] 0
  match t.1 with
  | some ek => Except.error (ek, ⟨t.2.1, 0⟩)
  | none =>
    if s.file.garbage = 0 then
      Except.ok (s.replace_reader_writer_index_file ⟨t.2.1, 0⟩ t.2.2 compact_file_path)
    else Except.error (ErrorKind.IoError, ⟨t.2.1, 0⟩)

/-- `KvStore::compact`.  On a copy error the partially written compact file is
removed and the error surfaced; on success the swapped-in compact file is renamed
to the `.log` extension, the old log file removed and the stale counter reset.
The third component is the list of files left on disk besides the active log. -/
def KvStore.compact (wfail : Nat → Bool) (s : KvStore K V) :
    Except ErrorKind Unit × KvStore K V × List (DbPath × DbFile K V) :=
  let compact_path := make_next_db_log_path s.file_path s.uuid_counter
  let s1 : KvStore K V := { s with uuid_counter := s.uuid_counter + 1 }
  match s1.copy_active_records_to_compaction_file_and_update_indexes sz wfail compact_path with
  | Except.error e =>
    (Except.error e.1, s1, removeFileL compact_path [(compact_path, e.2)])
  | Except.ok (s2, old) =>
    let s3 : KvStore K V := { s2 with file_path := { s2.file_path with ext := "log" } }
    let s4 : KvStore K V := { s3 with stale_count := 0 }
    (Except.ok (), s4, removeFileL old.2.2 [(old.2.2, old.1)])

/-- `KvStore::compact_if_stale_threshold_reached`: compact when the index holds at
least `min_records_before_compaction` keys and the stale fraction reaches
`stale_fraction_for_compaction` (the f64 arithmetic modelled over `ℚ`).  The
source's size assert always holds over `Nat`. -/
def KvStore.compact_if_stale_threshold_reached (wfail : Nat → Bool) (s : KvStore K V) :
    Except ErrorKind Unit × KvStore K V × List (DbPath × DbFile K V) :=
  if s.min_records_before_compaction ≤ s.index.length ∧
      s.stale_fraction_for_compaction ≤ (s.stale_count : ℚ) / (s.index.length : ℚ) then
    s.compact sz wfail
  else (Except.ok (), s, [])

/-- `KvStore::set`: build the record at the writer position, append it (with the
truncate-on-failure discipline), insert the key, count a displaced entry as
stale, then run the compaction check. -/
def KvStore.set (efail : Bool) (wfail : Nat → Bool) (s : KvStore K V) (key : K) (value : V) :
    Except ErrorKind Unit × KvStore K V × List (DbPath × DbFile K V) :=
  let r0 := s.build_output_record sz key (some value)
  let db_key := r0.db_key
  match s.write_record_to_db sz efail r0 with
  | (Except.error e, s1) => (Except.error e, s1, [])
  | (Except.ok _, s1) =>
    let displaced := (lookupIdx s1.index key).isSome
    let s2 : KvStore K V :=
      { s1 with index := insertIdx s1.index key db_key,
                stale_count := s1.stale_count + (if displaced then 1 else 0) }
    s2.compact_if_stale_threshold_reached sz wfail

/-- `KvStore::remove`: an absent key is `KeyNotPresent` with no append and no
counter change; a present key appends a tombstone, deletes the index entry,
counts one stale record and runs the compaction check. -/
def KvStore.remove (efail : Bool) (wfail : Nat → Bool) (s : KvStore K V) (key : K) :
    Except ErrorKind Unit × KvStore K V × List (DbPath × DbFile K V) :=
  if (lookupIdx s.index key).isSome then
    let r0 := s.build_output_record sz key none
    match s.write_record_to_db sz efail r0 with
    | (Except.error e, s1) => (Except.error e, s1, [])
    | (Except.ok _, s1) =>
      let s2 : KvStore K V :=
        { s1 with index := eraseIdx s1.index key, stale_count := s1.stale_count + 1 }
      s2.compact_if_stale_threshold_reached sz wfail
  else (Except.error ErrorKind.KeyNotPresent, s, [])

/-- One entry of the store directory, as `latest_log_for_dir` inspects it. -/
structure DirEntry (K V : Type) where
  stem : String
  ext : String
  mtime : Nat
  content : DbFile K V
deriving DecidableEq, Repr

/-- The filename test of `latest_log_for_dir`: stem starts with `kvsdb-`, stem
length exactly 38, extension `log`.  `starts_with` is modelled as a prefix test
on the character list (the names involved are ASCII, so Rust's byte length and
the character count agree). -/
def isDbLogName (stem ext : String) : Bool :=
  decide (stem.data.take 6 = "kvsdb-".data) && stem.length == 38 && ext == "log"

/-- `latest_log_for_dir`: the matching entry with the strictly greatest
modification time (the first such entry wins ties, as in the source fold). -/
def latest_log_for_dir (entries : List (DirEntry K V)) : Option (DirEntry K V) :=
  entries.foldl
    (fun best e =>
      if isDbLogName e.stem e.ext then
        match best with
        | none => some e
        | some b => if b.mtime < e.mtime then some e else some b
      else best)
    none

/-- `use_existing_or_create_new_db_log_path`: the newest matching log (with its
contents), or a freshly minted path (bumping the uuid counter). -/
def use_existing_or_create_new_db_log_path (dir : String) (entries : List (DirEntry K V))
    (n : Nat) : DbPath × Option (DbFile K V) × Nat :=
  match latest_log_for_dir entries with
  | some e => (⟨dir, e.stem, e.ext⟩, some e.content, n)
  | none => (make_db_log_path dir n, none, n + 1)

/-- `open_db_reader_and_writer`: create-or-open the file, truncating when asked
(else the writer seeks to end-of-file); the resulting contents. -/
def open_db_reader_and_writer (existing : Option (DbFile K V)) (truncate : Bool) :
    DbFile K V :=
  if truncate then ⟨[], 0⟩ else existing.getD ⟨[], 0⟩

/-- `KvStore::init_self`: empty index, zero stale count, default thresholds
(fraction 1/4, minimum 100 records), file opened with or without truncation. -/
def KvStore.init_self (db_path : DbPath) (existing : Option (DbFile K V))
    (do_truncate_on_open : Bool) (n : Nat) : KvStore K V :=
  { index := []
    stale_count := 0
    file_path := db_path
    file := open_db_reader_and_writer existing do_truncate_on_open
    stale_fraction_for_compaction := (1 : ℚ) / 4
    min_records_before_compaction := 100
    uuid_counter := n }

/-- `KvStore::new`: choose the log path exactly as `open` does, then initialize
with truncation and without replaying the log. -/
def KvStore.new (dir : String) (entries : List (DirEntry K V)) (n : Nat) : KvStore K V :=
  let t := use_existing_or_create_new_db_log_path dir entries n
  KvStore.init_self t.1 t.2.1 true t.2.2

/-- `KvStore::open` (named `openStore` here because `open` is a Lean keyword):
choose the log path, initialize without truncation, replay the log. -/
def KvStore.openStore (dir : String) (entries : List (DirEntry K V)) (n : Nat) :
    Except ErrorKind (KvStore K V) :=
  let t := use_existing_or_create_new_db_log_path dir entries n
  let s : KvStore K V := KvStore.init_self t.1 t.2.1 false t.2.2
  match KvStore.load_index s.file with
  | Except.ok li => Except.ok { s with index := li.1, stale_count := li.2 }
  | Except.error e => Except.error e

/-- A store mutation, for stating properties about operation sequences. -/
inductive Op (K V : Type) where
  | setOp (key : K) (value : V)
  | removeOp (key : K)
deriving DecidableEq, Repr

/-- Run one fault-free mutation, returning the result and the updated store. -/
def applyOp (op : Op K V) (s : KvStore K V) : Except ErrorKind Unit × KvStore K V :=
  match op with
  | Op.setOp k v =>
    let t := KvStore.set sz false (fun _ => false) s k v
    (t.1, t.2.1)
  | Op.removeOp k =>
    let t := KvStore.remove sz false (fun _ => false) s k
    (t.1, t.2.1)

/-- Run a sequence of mutations; `none` as soon as one fails. -/
def runOps : List (Op K V) → KvStore K V → Option (KvStore K V)
  | [], s => some s
  | op :: ops, s =>
    match applyOp sz op s with
    | (Except.ok _, s1) => runOps ops s1
    | (Except.error _, _) => none

/-- Whether an operation mutates the binding of key `k`. -/
def touches (k : K) : Op K V → Bool
  | Op.setOp k2 _ => decide (k2 = k)
  | Op.removeOp k2 => decide (k2 = k)

/-- The live value of `k`: the value of the record the index points at. -/
def liveVal (s : KvStore K V) (k : K) : Option V :=
  match lookupIdx s.index k with
  | none => none
  | some o =>
    match decodeRecAt sz s.file.recs 0 o with
    | some r => r.value
    | none => none

/-- Every record of the list sits at the byte offset stored in its `db_key`,
when the list is laid out starting at offset `base`. -/
def wellPlaced : Nat → List (Record K V) → Bool
  | _, [] => true
  | base, r :: rs => decide (r.db_key = base) && wellPlaced (base + sz r) rs

/-- Every index entry decodes, at its stored offset, to a non-tombstone record
carrying that key. -/
def indexOk (idx : List (K × Nat)) (rs : List (Record K V)) : Bool :=
  idx.all fun kv =>
    match decodeRecAt sz rs 0 kv.2 with
    | some r => decide (r.key = kv.1) && r.value.isSome
    | none => false

/-- The store's representation invariant: a clean log whose records sit at their
`db_key` offsets, whose replay reproduces the in-memory index and stale counter,
and whose index entries decode to live records of the right key. -/
def Good (s : KvStore K V) : Prop :=
  s.file.garbage = 0 ∧
  wellPlaced sz 0 s.file.recs = true ∧
  replayFold s.file.recs = (s.index, s.stale_count) ∧
  indexOk sz s.index s.file.recs = true ∧
  nodupKeys s.index = true

instance (s : KvStore K V) : Decidable (Good sz s) := by
  unfold Good
  infer_instance

/-- Unit-size codec instance used for concrete evaluations. -/
def szOne : Record Nat Nat → Nat := fun _ => 1

/-! ### Association-list index lemmas -/

theorem lookupIdx_mem {l : List (K × Nat)} {k : K} {o : Nat}
    (h : lookupIdx l k = some o) : (k, o) ∈ l := by
  induction l with
  | nil => simp [lookupIdx] at h
  | cons hd t ih =>
    obtain ⟨k1, v1⟩ := hd
    by_cases hk : k1 = k
    · subst hk
      simp [lookupIdx] at h
      subst h
      exact List.mem_cons_self _ _
    · simp [lookupIdx, hk] at h
      exact List.mem_cons_of_mem _ (ih h)

theorem lookupIdx_insertIdx_self (l : List (K × Nat)) (k : K) (v : Nat) :
    lookupIdx (insertIdx l k v) k = some v := by
  induction l with
  | nil => simp [insertIdx, lookupIdx]
  | cons hd t ih =>
    obtain ⟨k1, v1⟩ := hd
    by_cases hk : k1 = k
    · subst hk
      simp [insertIdx, lookupIdx]
    · simp [insertIdx, lookupIdx, hk, ih]

theorem lookupIdx_insertIdx_ne (l : List (K × Nat)) (k k2 : K) (v : Nat)
    (h : k2 ≠ k) : lookupIdx (insertIdx l k v) k2 = lookupIdx l k2 := by
  have hne : ¬ (k = k2) := fun hh => h hh.symm
  induction l with
  | nil => simp [insertIdx, lookupIdx, hne]
  | cons hd t ih =>
    obtain ⟨k1, v1⟩ := hd
    by_cases hk : k1 = k
    · subst hk
      simp [insertIdx, lookupIdx, hne]
    · by_cases hk2 : k1 = k2
      · subst hk2
        simp [insertIdx, lookupIdx, hk]
      · simp [insertIdx, lookupIdx, hk, hk2, ih]

theorem lookupIdx_eraseIdx_ne (l : List (K × Nat)) (k k2 : K)
    (h : k2 ≠ k) : lookupIdx (eraseIdx l k) k2 = lookupIdx l k2 := by
  induction l with
  | nil => simp [eraseIdx]
  | cons hd t ih =>
    obtain ⟨k1, v1⟩ := hd
    by_cases hk : k1 = k
    · subst hk
      have hne : ¬ (k1 = k2) := fun hh => h hh.symm
      simp [eraseIdx, lookupIdx, hne]
    · by_cases hk2 : k1 = k2
      · subst hk2
        simp [eraseIdx, lookupIdx, hk]
      · simp [eraseIdx, lookupIdx, hk, hk2, ih]

theorem nodupKeys_cons {k1 : K} {v1 : Nat} {t : List (K × Nat)} :
    nodupKeys ((k1, v1) :: t) = true ↔ lookupIdx t k1 = none ∧ nodupKeys t = true := by
  simp [nodupKeys, Option.not_isSome_iff_eq_none]

theorem lookupIdx_eraseIdx_self (l : List (K × Nat)) (k : K)
    (h : nodupKeys l = true) : lookupIdx (eraseIdx l k) k = none := by
  induction l with
  | nil => simp [eraseIdx, lookupIdx]
  | cons hd t ih =>
    obtain ⟨k1, v1⟩ := hd
    rw [nodupKeys_cons] at h
    by_cases hk : k1 = k
    · subst hk
      simpa [eraseIdx] using h.1
    · simp [eraseIdx, lookupIdx, hk, ih h.2]

theorem nodupKeys_insertIdx (l : List (K × Nat)) (k : K) (v : Nat)
    (h : nodupKeys l = true) : nodupKeys (insertIdx l k v) = true := by
  induction l with
  | nil => simp [insertIdx, nodupKeys, lookupIdx]
  | cons hd t ih =>
    obtain ⟨k1, v1⟩ := hd
    rw [nodupKeys_cons] at h
    by_cases hk : k1 = k
    · subst hk
      have hins : insertIdx ((k1, v1) :: t) k1 v = (k1, v) :: t := by simp [insertIdx]
      rw [hins, nodupKeys_cons]
      exact ⟨h.1, h.2⟩
    · simp only [insertIdx, if_neg hk, nodupKeys_cons]
      refine ⟨?_, ih h.2⟩
      rw [lookupIdx_insertIdx_ne t k k1 v hk]
      exact h.1

theorem nodupKeys_eraseIdx (l : List (K × Nat)) (k : K)
    (h : nodupKeys l = true) : nodupKeys (eraseIdx l k) = true := by
  induction l with
  | nil => simp [eraseIdx, nodupKeys]
  | cons hd t ih =>
    obtain ⟨k1, v1⟩ := hd
    rw [nodupKeys_cons] at h
    by_cases hk : k1 = k
    · subst hk
      simpa [eraseIdx] using h.2
    · simp only [eraseIdx, if_neg hk, nodupKeys_cons]
      refine ⟨?_, ih h.2⟩
      rw [lookupIdx_eraseIdx_ne t k k1 hk]
      exact h.1

theorem length_insertIdx (l : List (K × Nat)) (k : K) (v : Nat) :
    (insertIdx l k v).length =
      if (lookupIdx l k).isSome then l.length else l.length + 1 := by
  induction l with
  | nil => simp [insertIdx, lookupIdx]
  | cons hd t ih =>
    obtain ⟨k1, v1⟩ := hd
    by_cases hk : k1 = k
    · subst hk
      simp [insertIdx, lookupIdx]
    · simp only [insertIdx, if_neg hk, lookupIdx, List.length_cons, ih]
      by_cases hs : (lookupIdx t k).isSome
      · simp [hs, hk]
      · simp [hs, hk]

theorem lookupIdx_isSome_iff {l : List (K × Nat)} {k : K} :
    (lookupIdx l k).isSome = true ↔ k ∈ l.map Prod.fst := by
  induction l with
  | nil => simp [lookupIdx]
  | cons hd t ih =>
    obtain ⟨k1, v1⟩ := hd
    by_cases hk : k1 = k
    · subst hk
      simp [lookupIdx]
    · have hne : ¬ (k = k1) := fun hh => hk hh.symm
      simp only [lookupIdx, if_neg hk, List.map_cons, List.mem_cons]
      rw [ih]
      constructor
      · exact Or.inr
      · rintro (h1 | h1)
        · exact absurd h1 hne
        · exact h1

theorem nodupKeys_nodup_map_fst {l : List (K × Nat)}
    (h : nodupKeys l = true) : (l.map Prod.fst).Nodup := by
  induction l with
  | nil => simp
  | cons hd t ih =>
    obtain ⟨k1, v1⟩ := hd
    rw [nodupKeys_cons] at h
    simp only [List.map_cons, List.nodup_cons]
    refine ⟨?_, ih h.2⟩
    intro hmem
    have h2 := lookupIdx_isSome_iff.mpr hmem
    rw [h.1] at h2
    simp at h2

/-! ### Encoding-size, layout and decoding lemmas -/

@[simp] theorem encSize_nil : encSize sz ([] : List (Record K V)) = 0 := rfl

@[simp] theorem encSize_cons (r : Record K V) (rs : List (Record K V)) :
    encSize sz (r :: rs) = sz r + encSize sz rs := by
  simp [encSize]

@[simp] theorem encSize_append (l1 l2 : List (Record K V)) :
    encSize sz (l1 ++ l2) = encSize sz l1 + encSize sz l2 := by
  simp [encSize]

theorem decodeRecAt_append (l1 l2 : List (Record K V)) (base o : Nat) :
    decodeRecAt sz (l1 ++ l2) base o =
      match decodeRecAt sz l1 base o with
      | some r => some r
      | none => decodeRecAt sz l2 (base + encSize sz l1) o := by
  induction l1 generalizing base with
  | nil => simp [decodeRecAt]
  | cons r rs ih =>
    by_cases hb : base = o
    · simp [decodeRecAt, hb]
    · simp only [List.cons_append, List.append_eq, decodeRecAt, if_neg hb, encSize_cons]
      rw [ih (base + sz r), Nat.add_assoc]

theorem decodeRecAt_db_key {l : List (Record K V)} {base o : Nat} {r : Record K V}
    (hwp : wellPlaced sz base l = true) (hdec : decodeRecAt sz l base o = some r) :
    r.db_key = o := by
  induction l generalizing base with
  | nil => simp [decodeRecAt] at hdec
  | cons r1 rs ih =>
    simp only [wellPlaced, Bool.and_eq_true, decide_eq_true_eq] at hwp
    by_cases hb : base = o
    · simp only [decodeRecAt, if_pos hb, Option.some.injEq] at hdec
      rw [← hdec, hwp.1, hb]
    · simp only [decodeRecAt, if_neg hb] at hdec
      exact ih hwp.2 hdec

theorem decodeRecAt_mem {l : List (Record K V)} {base o : Nat} {r : Record K V}
    (hdec : decodeRecAt sz l base o = some r) : r ∈ l := by
  induction l generalizing base with
  | nil => simp [decodeRecAt] at hdec
  | cons r1 rs ih =>
    by_cases hb : base = o
    · simp only [decodeRecAt, if_pos hb, Option.some.injEq] at hdec
      rw [← hdec]
      exact List.mem_cons_self _ _
    · simp only [decodeRecAt, if_neg hb] at hdec
      exact List.mem_cons_of_mem _ (ih hdec)

theorem decodeRecAt_none_of_le (hsz : ∀ r : Record K V, 0 < sz r)
    {l : List (Record K V)} {base o : Nat} (h : base + encSize sz l ≤ o) :
    decodeRecAt sz l base o = none := by
  induction l generalizing base with
  | nil => rfl
  | cons r rs ih =>
    have hr := hsz r
    simp only [encSize_cons] at h
    have hb : base ≠ o := by omega
    simp only [decodeRecAt, if_neg hb]
    exact ih (by omega)

theorem wellPlaced_append (l1 l2 : List (Record K V)) (base : Nat) :
    wellPlaced sz base (l1 ++ l2) =
      (wellPlaced sz base l1 && wellPlaced sz (base + encSize sz l1) l2) := by
  induction l1 generalizing base with
  | nil => simp [wellPlaced]
  | cons r rs ih =>
    simp only [List.cons_append, List.append_eq, wellPlaced, ih (base + sz r), encSize_cons,
      Bool.and_assoc, Nat.add_assoc]

theorem setLenRecs_full (l : List (Record K V)) (g : Nat) :
    setLenRecs sz l (encSize sz l + g) = (l, g) := by
  induction l with
  | nil => simp [setLenRecs]
  | cons r rs ih =>
    simp only [encSize_cons]
    have h1 : sz r ≤ sz r + encSize sz rs + g := by omega
    have h2 : sz r + encSize sz rs + g - sz r = encSize sz rs + g := by omega
    simp [setLenRecs, h1, h2, ih]

theorem setLen_fileSize (f : DbFile K V) : setLen sz f (fileSize sz f) = f := by
  unfold setLen fileSize
  rw [setLenRecs_full]

/-! ### Replay lemmas -/

theorem replayFold_append (l : List (Record K V)) (r : Record K V) :
    replayFold (l ++ [r]) = replayStep (replayFold l) r := by
  simp [replayFold, List.foldl_append]

theorem good_new (dir : String) (entries : List (DirEntry K V)) (n : Nat) :
    Good sz (KvStore.new dir entries n) := by
  unfold KvStore.new KvStore.init_self open_db_reader_and_writer Good
  simp [wellPlaced, replayFold, indexOk, nodupKeys]

theorem indexOk_lookup {idx : List (K × Nat)} {rs : List (Record K V)}
    (hio : indexOk sz idx rs = true) {k : K} {o : Nat}
    (hL : lookupIdx idx k = some o) :
    ∃ r, decodeRecAt sz rs 0 o = some r ∧ r.key = k ∧ r.value.isSome = true := by
  have hmem : (k, o) ∈ idx := lookupIdx_mem hL
  have hall := (List.all_eq_true.mp hio) ⟨k, o⟩ hmem
  dsimp only at hall
  split at hall
  case h_1 r hdec =>
    simp only [Bool.and_eq_true, decide_eq_true_eq] at hall
    exact ⟨r, hdec, hall.1, hall.2⟩
  case h_2 => simp at hall

theorem mem_insertIdx {l : List (K × Nat)} {k : K} {v : Nat} {kv : K × Nat}
    (h : kv ∈ insertIdx l k v) : kv = (k, v) ∨ kv ∈ l := by
  induction l with
  | nil => simpa [insertIdx] using h
  | cons hd t ih =>
    obtain ⟨k1, v1⟩ := hd
    by_cases hk : k1 = k
    · subst hk
      have hins : insertIdx ((k1, v1) :: t) k1 v = (k1, v) :: t := by simp [insertIdx]
      rw [hins, List.mem_cons] at h
      rcases h with h | h
      · exact Or.inl h
      · exact Or.inr (List.mem_cons_of_mem _ h)
    · simp only [insertIdx, if_neg hk, List.mem_cons] at h
      rcases h with h | h
      · exact Or.inr (by simp [h])
      · rcases ih h with h1 | h1
        · exact Or.inl h1
        · exact Or.inr (List.mem_cons_of_mem _ h1)

theorem mem_eraseIdx {l : List (K × Nat)} {k : K} {kv : K × Nat}
    (h : kv ∈ eraseIdx l k) : kv ∈ l := by
  induction l with
  | nil => simpa [eraseIdx] using h
  | cons hd t ih =>
    obtain ⟨k1, v1⟩ := hd
    by_cases hk : k1 = k
    · subst hk
      have hers : eraseIdx ((k1, v1) :: t) k1 = t := by simp [eraseIdx]
      rw [hers] at h
      exact List.mem_cons_of_mem _ h
    · simp only [eraseIdx, if_neg hk, List.mem_cons] at h
      rcases h with h | h
      · exact (by simp [h])
      · exact List.mem_cons_of_mem _ (ih h)

theorem decodeRecAt_append_some {rs more : List (Record K V)} {base o : Nat}
    {r : Record K V} (h : decodeRecAt sz rs base o = some r) :
    decodeRecAt sz (rs ++ more) base o = some r := by
  rw [decodeRecAt_append, h]

theorem decodeRecAt_snoc (hsz : ∀ r0 : Record K V, 0 < sz r0)
    (rs : List (Record K V)) (r : Record K V) :
    decodeRecAt sz (rs ++ [r]) 0 (encSize sz rs) = some r := by
  rw [decodeRecAt_append, decodeRecAt_none_of_le sz hsz (by omega)]
  simp [decodeRecAt]

theorem wellPlaced_snoc {out : List (Record K V)} {r1 : Record K V}
    (hwp : wellPlaced sz 0 out = true) (hdb : r1.db_key = encSize sz out) :
    wellPlaced sz 0 (out ++ [r1]) = true := by
  rw [wellPlaced_append]
  simp [wellPlaced, hwp, hdb]

theorem indexOk_iff {idx : List (K × Nat)} {rs : List (Record K V)} :
    indexOk sz idx rs = true ↔
      ∀ kv ∈ idx, ∃ r2, decodeRecAt sz rs 0 kv.2 = some r2 ∧
        r2.key = kv.1 ∧ r2.value.isSome = true := by
  unfold indexOk
  rw [List.all_eq_true]
  constructor
  · intro h kv hkv
    have h2 := h kv hkv
    split at h2
    case h_1 r2 hdec =>
      simp only [Bool.and_eq_true, decide_eq_true_eq] at h2
      exact ⟨r2, hdec, h2.1, h2.2⟩
    case h_2 => simp at h2
  · intro h kv hkv
    obtain ⟨r2, hdec, hkey, hsome⟩ := h kv hkv
    rw [hdec]
    simp [hkey, hsome]

theorem get_eq_liveVal (s : KvStore K V) (hg : Good sz s) (k : K) :
    KvStore.get sz s k = Except.ok (liveVal sz s k) := by
  obtain ⟨hgar, hwp, hrf, hio, hnd⟩ := hg
  unfold KvStore.get liveVal
  cases hL : lookupIdx s.index k with
  | none => rfl
  | some o =>
    obtain ⟨r, hdec, hkey, hsome⟩ := indexOk_lookup sz hio hL
    show KvStore.read_next_record_value sz s.file o =
      Except.ok (match decodeRecAt sz s.file.recs 0 o with
        | some r1 => r1.value
        | none => none)
    unfold KvStore.read_next_record_value KvStore.read_next_record
    rw [hdec]

/-! ### The compaction copy loop -/

theorem walk_main (hsz : ∀ r0 : Record K V, 0 < sz r0) (idx : List (K × Nat)) :
    ∀ (rs out : List (Record K V)) (nidx : List (K × Nat)) (i : Nat)
      (e : Option ErrorKind) (out1 : List (Record K V)) (nidx1 : List (K × Nat)),
      walkRecords sz (fun _ => false) idx rs out nidx i = (e, out1, nidx1) →
      wellPlaced sz 0 out = true →
      nodupKeys nidx = true →
      indexOk sz nidx out = true →
      (∀ r1 ∈ out, r1.value.isSome = true) →
      (∀ r1 ∈ rs, lookupIdx idx r1.key = some r1.db_key → lookupIdx nidx r1.key = none) →
      List.Pairwise
        (fun a b => lookupIdx idx a.key = some a.db_key →
          lookupIdx idx b.key = some b.db_key → a.key ≠ b.key) rs →
      (∀ r1 ∈ rs, lookupIdx idx r1.key = some r1.db_key → r1.value.isSome = true) →
      e = none ∧
      (∃ t1, out1 = out ++ t1) ∧
      wellPlaced sz 0 out1 = true ∧
      nodupKeys nidx1 = true ∧
      indexOk sz nidx1 out1 = true ∧
      (∀ r1 ∈ out1, r1.value.isSome = true) ∧
      out1.length = out.length +
        (rs.filter fun r1 => decide (lookupIdx idx r1.key = some r1.db_key)).length ∧
      nidx1.length = nidx.length +
        (rs.filter fun r1 => decide (lookupIdx idx r1.key = some r1.db_key)).length ∧
      (∀ k, (∀ r1 ∈ rs, lookupIdx idx r1.key = some r1.db_key → r1.key ≠ k) →
        lookupIdx nidx1 k = lookupIdx nidx k) ∧
      (∀ r1 ∈ rs, lookupIdx idx r1.key = some r1.db_key →
        ∃ p r2, lookupIdx nidx1 r1.key = some p ∧ decodeRecAt sz out1 0 p = some r2 ∧
          r2.value = r1.value ∧ r2.key = r1.key) ∧
      (∀ c, replayFold out = (nidx, c) → replayFold out1 = (nidx1, c)) := by
  intro rs
  induction rs with
  | nil =>
    intro out nidx i e out1 nidx1 hw hwp hnd hio hsome hfresh hpw hms
    simp only [walkRecords, Prod.mk.injEq] at hw
    obtain ⟨he, hout, hnidx⟩ := hw
    subst he
    subst hout
    subst hnidx
    exact ⟨rfl, ⟨[], by simp⟩, hwp, hnd, hio, hsome, by simp, by simp,
      fun k _ => rfl, fun r1 hr1 => absurd hr1 (List.not_mem_nil r1), fun c hc => hc⟩
  | cons r rs ih =>
    intro out nidx i e out1 nidx1 hw hwp hnd hio hsome hfresh hpw hms
    have hpw2 := List.pairwise_cons.mp hpw
    by_cases hc : lookupIdx idx r.key = some r.db_key
    · -- the record is the live version of its key and is rewritten
      have hred : walkRecords sz (fun _ => false) idx (r :: rs) out nidx i =
          walkRecords sz (fun _ => false) idx rs
            (out ++ [{ db_key := encSize sz out, key := r.key, value := r.value }])
            (insertIdx nidx r.key (encSize sz out)) (i + 1) := by
        simp only [walkRecords, if_pos hc, Bool.false_eq_true, if_false]
      rw [hred] at hw
      have key_ne : ∀ r1 ∈ rs, lookupIdx idx r1.key = some r1.db_key → r1.key ≠ r.key := by
        intro r1 hr1 hc1
        exact Ne.symm (hpw2.1 r1 hr1 hc hc1)
      have hvr : r.value.isSome = true := hms r (List.mem_cons_self _ _) hc
      have hwp3 : wellPlaced sz 0
          (out ++ [{ db_key := encSize sz out, key := r.key, value := r.value }]) = true :=
        wellPlaced_snoc sz hwp rfl
      have hnd3 : nodupKeys (insertIdx nidx r.key (encSize sz out)) = true :=
        nodupKeys_insertIdx _ _ _ hnd
      have hio3 : indexOk sz (insertIdx nidx r.key (encSize sz out))
          (out ++ [{ db_key := encSize sz out, key := r.key, value := r.value }]) = true := by
        rw [indexOk_iff]
        intro kv hkv
        rcases mem_insertIdx hkv with hkv1 | hkv1
        · subst hkv1
          exact ⟨{ db_key := encSize sz out, key := r.key, value := r.value },
            decodeRecAt_snoc sz hsz out _, rfl, hvr⟩
        · obtain ⟨r2, hdec, hkey2, hsome2⟩ := (indexOk_iff sz).mp hio kv hkv1
          exact ⟨r2, decodeRecAt_append_some sz hdec, hkey2, hsome2⟩
      have hsome3 : ∀ r1 ∈ out ++ [{ db_key := encSize sz out, key := r.key, value := r.value }],
          r1.value.isSome = true := by
        intro r1 hr1
        rcases List.mem_append.mp hr1 with h1 | h1
        · exact hsome r1 h1
        · have h2 : r1 = { db_key := encSize sz out, key := r.key, value := r.value } := by
            simpa using h1
          rw [h2]
          exact hvr
      have hfresh3 : ∀ r1 ∈ rs, lookupIdx idx r1.key = some r1.db_key →
          lookupIdx (insertIdx nidx r.key (encSize sz out)) r1.key = none := by
        intro r1 hr1 hc1
        rw [lookupIdx_insertIdx_ne _ _ _ _ (key_ne r1 hr1 hc1)]
        exact hfresh r1 (List.mem_cons_of_mem _ hr1) hc1
      obtain ⟨he1, ⟨t1, ht1⟩, hwp1, hnd1, hio1, hsome1, hlen1, hlen2, hlku, hmatched, hreplay⟩ :=
        ih _ _ (i + 1) e out1 nidx1 hw hwp3 hnd3 hio3 hsome3 hfresh3 hpw2.2
          (fun r1 hr1 hc1 => hms r1 (List.mem_cons_of_mem _ hr1) hc1)
      have hfilter : List.filter (fun r1 => decide (lookupIdx idx r1.key = some r1.db_key))
          (r :: rs) =
          r :: List.filter (fun r1 => decide (lookupIdx idx r1.key = some r1.db_key)) rs :=
        List.filter_cons_of_pos (by simpa using hc)
      refine ⟨he1, ?_, hwp1, hnd1, hio1, hsome1, ?_, ?_, ?_, ?_, ?_⟩
      · exact ⟨[{ db_key := encSize sz out, key := r.key, value := r.value }] ++ t1,
          by rw [ht1, List.append_assoc]⟩
      · rw [hlen1, hfilter]
        simp only [List.length_append, List.length_cons, List.length_nil]
        omega
      · rw [hlen2, hfilter, length_insertIdx]
        rw [hfresh r (List.mem_cons_self _ _) hc]
        simp only [Option.isSome_none, Bool.false_eq_true, if_false, List.length_cons]
        omega
      · intro k hk
        rw [hlku k (fun r1 hr1 hc1 => hk r1 (List.mem_cons_of_mem _ hr1) hc1)]
        exact lookupIdx_insertIdx_ne _ _ _ _ (Ne.symm (hk r (List.mem_cons_self _ _) hc))
      · intro r1 hr1 hc1
        rcases List.mem_cons.mp hr1 with h1 | h1
        · rw [h1]
          refine ⟨encSize sz out,
            { db_key := encSize sz out, key := r.key, value := r.value }, ?_, ?_, rfl, rfl⟩
          · rw [hlku r.key key_ne]
            exact lookupIdx_insertIdx_self _ _ _
          · rw [ht1]
            exact decodeRecAt_append_some sz (decodeRecAt_snoc sz hsz out _)
        · exact hmatched r1 h1 hc1
      · intro c hc0
        apply hreplay c
        rw [replayFold_append, hc0]
        obtain ⟨v, hv1⟩ := Option.isSome_iff_exists.mp hvr
        unfold replayStep
        rw [hv1]
        rw [hfresh r (List.mem_cons_self _ _) hc]
        simp
    · -- the record is stale and is skipped
      have hred : walkRecords sz (fun _ => false) idx (r :: rs) out nidx i =
          walkRecords sz (fun _ => false) idx rs out nidx i := by
        simp only [walkRecords, if_neg hc]
      rw [hred] at hw
      obtain ⟨he1, ht1, hwp1, hnd1, hio1, hsome1, hlen1, hlen2, hlku, hmatched, hreplay⟩ :=
        ih out nidx i e out1 nidx1 hw hwp hnd hio hsome
          (fun r1 hr1 hc1 => hfresh r1 (List.mem_cons_of_mem _ hr1) hc1) hpw2.2
          (fun r1 hr1 hc1 => hms r1 (List.mem_cons_of_mem _ hr1) hc1)
      have hfilter : List.filter (fun r1 => decide (lookupIdx idx r1.key = some r1.db_key))
          (r :: rs) =
          List.filter (fun r1 => decide (lookupIdx idx r1.key = some r1.db_key)) rs :=
        List.filter_cons_of_neg (by simpa using hc)
      refine ⟨he1, ht1, hwp1, hnd1, hio1, hsome1, ?_, ?_, ?_, ?_, hreplay⟩
      · rw [hlen1, hfilter]
      · rw [hlen2, hfilter]
      · intro k hk
        exact hlku k (fun r1 hr1 hc1 => hk r1 (List.mem_cons_of_mem _ hr1) hc1)
      · intro r1 hr1 hc1
        rcases List.mem_cons.mp hr1 with h1 | h1
        · rw [h1] at hc1
          exact absurd hc1 hc
        · exact hmatched r1 h1 hc1

theorem wellPlaced_le {base : Nat} {l : List (Record K V)}
    (hwp : wellPlaced sz base l = true) : ∀ r1 ∈ l, base ≤ r1.db_key := by
  induction l generalizing base with
  | nil => intro r1 hr1; simp at hr1
  | cons r rs ih =>
    simp only [wellPlaced, Bool.and_eq_true, decide_eq_true_eq] at hwp
    intro r1 hr1
    rcases List.mem_cons.mp hr1 with h1 | h1
    · rw [h1, hwp.1]
    · exact le_trans (Nat.le_add_right base (sz r)) (ih hwp.2 r1 h1)

theorem wellPlaced_pairwise_lt (hsz : ∀ r0 : Record K V, 0 < sz r0)
    {base : Nat} {l : List (Record K V)} (hwp : wellPlaced sz base l = true) :
    List.Pairwise (fun a b : Record K V => a.db_key < b.db_key) l := by
  induction l generalizing base with
  | nil => exact List.Pairwise.nil
  | cons r rs ih =>
    simp only [wellPlaced, Bool.and_eq_true, decide_eq_true_eq] at hwp
    refine List.Pairwise.cons ?_ (ih hwp.2)
    intro b hb
    have h1 := wellPlaced_le sz hwp.2 b hb
    have h2 := hsz r
    omega

theorem decodeRecAt_self (hsz : ∀ r0 : Record K V, 0 < sz r0)
    {base : Nat} {l : List (Record K V)} (hwp : wellPlaced sz base l = true)
    {r1 : Record K V} (hmem : r1 ∈ l) : decodeRecAt sz l base r1.db_key = some r1 := by
  induction l generalizing base with
  | nil => simp at hmem
  | cons r rs ih =>
    simp only [wellPlaced, Bool.and_eq_true, decide_eq_true_eq] at hwp
    rcases List.mem_cons.mp hmem with h1 | h1
    · rw [h1]
      simp [decodeRecAt, hwp.1]
    · have hge := wellPlaced_le sz hwp.2 r1 h1
      have h2 := hsz r
      have hne : base ≠ r1.db_key := by omega
      simp only [decodeRecAt, if_neg hne]
      exact ih hwp.2 h1

theorem matched_pairwise (hsz : ∀ r0 : Record K V, 0 < sz r0)
    {l : List (Record K V)} (hwp : wellPlaced sz 0 l = true) (idx : List (K × Nat)) :
    List.Pairwise (fun a b => lookupIdx idx a.key = some a.db_key →
      lookupIdx idx b.key = some b.db_key → a.key ≠ b.key) l := by
  refine (wellPlaced_pairwise_lt sz hsz hwp).imp ?_
  intro a b hab hca hcb hk
  rw [hk] at hca
  rw [hca] at hcb
  simp only [Option.some.injEq] at hcb
  omega

theorem matched_isSome (hsz : ∀ r0 : Record K V, 0 < sz r0)
    {l : List (Record K V)} {idx : List (K × Nat)}
    (hwp : wellPlaced sz 0 l = true) (hio : indexOk sz idx l = true) :
    ∀ r1 ∈ l, lookupIdx idx r1.key = some r1.db_key → r1.value.isSome = true := by
  intro r1 hm hc
  obtain ⟨r2, hdec, hkey, hsome⟩ := indexOk_lookup sz hio hc
  have hself := decodeRecAt_self sz hsz hwp hm
  rw [hdec] at hself
  simp only [Option.some.injEq] at hself
  rw [← hself]
  exact hsome

/-- Everything compaction guarantees on a store satisfying the representation
invariant: it succeeds, leaves no extra file on disk, preserves the invariant
and every live binding, zeroes the stale counter, keeps the index size, writes
exactly one record per live key with no tombstone, lays records at their
`db_key` offsets, and ends on a `.log` path. -/
theorem compact_ok (hsz : ∀ r0 : Record K V, 0 < sz r0) (s : KvStore K V)
    (hg : Good sz s) :
    ∃ s1, KvStore.compact sz (fun _ => false) s = (Except.ok (), s1, []) ∧
      Good sz s1 ∧
      (∀ k, liveVal sz s1 k = liveVal sz s k) ∧
      s1.stale_count = 0 ∧
      s1.index.length = s.index.length ∧
      s1.file.recs.length = s1.index.length ∧
      s1.file.garbage = 0 ∧
      (∀ r1 ∈ s1.file.recs, r1.value.isSome = true) ∧
      wellPlaced sz 0 s1.file.recs = true ∧
      s1.file_path.ext = "log" ∧
      s1.min_records_before_compaction = s.min_records_before_compaction ∧
      s1.stale_fraction_for_compaction = s.stale_fraction_for_compaction := by
  obtain ⟨hgar, hwp, hrf, hio, hnd⟩ := hg
  rcases hW : walkRecords sz (fun _ => false) s.index s.file.recs [] [] 0 with ⟨e, out1, nidx1⟩
  obtain ⟨he, ⟨t1, ht1⟩, hwp1, hnd1, hio1, hsome1, hlen1, hlen2, hlku, hmatched, hreplay⟩ :=
    walk_main sz hsz s.index s.file.recs [] [] 0 e out1 nidx1 hW rfl rfl rfl
      (fun r1 hr1 => absurd hr1 (List.not_mem_nil r1))
      (fun r1 _ _ => rfl)
      (matched_pairwise sz hsz hwp s.index)
      (matched_isSome sz hsz hwp hio)
  subst he
  refine ⟨⟨nidx1, 0, ⟨s.file_path.dir, "kvsdb-" ++ hex32 s.uuid_counter, "log"⟩, ⟨out1, 0⟩,
      s.stale_fraction_for_compaction, s.min_records_before_compaction, s.uuid_counter + 1⟩,
    ?_, ?_, ?_, rfl, ?_, ?_, rfl, hsome1, hwp1, rfl, rfl, rfl⟩
  · -- the computation itself
    unfold KvStore.compact KvStore.copy_active_records_to_compaction_file_and_update_indexes
      KvStore.replace_reader_writer_index_file make_next_db_log_path
    simp only [hW, hgar, removeFileL]
    simp
  · -- the representation invariant for the compacted store
    refine ⟨rfl, hwp1, ?_, hio1, hnd1⟩
    exact hreplay 0 rfl
  · -- live bindings are preserved
    intro k
    cases hL : lookupIdx s.index k with
    | none =>
      have h0 : ∀ r1 ∈ s.file.recs, lookupIdx s.index r1.key = some r1.db_key →
          r1.key ≠ k := by
        intro r1 _ hc1 hk1
        rw [hk1, hL] at hc1
        exact Option.noConfusion hc1
      have hnone : lookupIdx nidx1 k = none := by
        rw [hlku k h0]
        rfl
      simp [liveVal, hL, hnone]
    | some o =>
      obtain ⟨r2, hdec, hkey, hsome⟩ := indexOk_lookup sz hio hL
      have hmem : r2 ∈ s.file.recs := decodeRecAt_mem sz hdec
      have hdb : r2.db_key = o := decodeRecAt_db_key sz hwp hdec
      have hcond : lookupIdx s.index r2.key = some r2.db_key := by
        rw [hkey, hdb]
        exact hL
      obtain ⟨p, r3, hp, hdec3, hval3, hkey3⟩ := hmatched r2 hmem hcond
      rw [hkey] at hp
      simp [liveVal, hL, hdec, hp, hdec3, hval3]
  · -- the index is exactly as large as before
    have hnodup1 : ((s.file.recs.filter
        (fun r1 => decide (lookupIdx s.index r1.key = some r1.db_key))).map
          (fun r1 => r1.key)).Nodup :=
      List.Pairwise.map _ (fun a b h => h)
        (((matched_pairwise sz hsz hwp s.index).sublist
            (List.filter_sublist _)).imp_of_mem
          (fun ha hb hpab =>
            hpab (by simpa using (List.mem_filter.mp ha).2)
              (by simpa using (List.mem_filter.mp hb).2)))
    have hnodup2 : (s.index.map Prod.fst).Nodup := nodupKeys_nodup_map_fst hnd
    have hmemiff : ∀ k, k ∈ ((s.file.recs.filter
        (fun r1 => decide (lookupIdx s.index r1.key = some r1.db_key))).map
          (fun r1 => r1.key)) ↔ k ∈ s.index.map Prod.fst := by
      intro k
      constructor
      · intro hk
        obtain ⟨r1, hr1, hk1⟩ := List.mem_map.mp hk
        have hc1 : lookupIdx s.index r1.key = some r1.db_key := by
          simpa using (List.mem_filter.mp hr1).2
        rw [← hk1]
        rw [← lookupIdx_isSome_iff]
        rw [hc1]
        rfl
      · intro hk
        obtain ⟨o, hL⟩ := Option.isSome_iff_exists.mp (lookupIdx_isSome_iff.mpr hk)
        obtain ⟨r2, hdec, hkey, hsome⟩ := indexOk_lookup sz hio hL
        have hmem : r2 ∈ s.file.recs := decodeRecAt_mem sz hdec
        have hdb : r2.db_key = o := decodeRecAt_db_key sz hwp hdec
        refine List.mem_map.mpr ⟨r2, List.mem_filter.mpr ⟨hmem, ?_⟩, hkey⟩
        simp only [decide_eq_true_eq]
        rw [hkey, hdb]
        exact hL
    have hperm := (List.perm_ext_iff_of_nodup hnodup1 hnodup2).mpr hmemiff
    have hlenf := hperm.length_eq
    rw [List.length_map, List.length_map] at hlenf
    show nidx1.length = s.index.length
    rw [hlen2, hlenf]
    simp
  · -- one record per live key
    show out1.length = nidx1.length
    rw [hlen1, hlen2]
    rfl

/-! ### Effects of the public mutations on a store satisfying the invariant -/

theorem compact_if_ok (hsz : ∀ r0 : Record K V, 0 < sz r0) (s : KvStore K V)
    (hg : Good sz s) :
    ∃ s1, KvStore.compact_if_stale_threshold_reached sz (fun _ => false) s =
        (Except.ok (), s1, []) ∧
      Good sz s1 ∧ (∀ k, liveVal sz s1 k = liveVal sz s k) := by
  unfold KvStore.compact_if_stale_threshold_reached
  by_cases hc : s.min_records_before_compaction ≤ s.index.length ∧
      s.stale_fraction_for_compaction ≤ (s.stale_count : ℚ) / (s.index.length : ℚ)
  · rw [if_pos hc]
    obtain ⟨s1, hcomp, hgood, hlv, _, _, _, _, _, _, _, _, _⟩ := compact_ok sz hsz s hg
    exact ⟨s1, hcomp, hgood, hlv⟩
  · rw [if_neg hc]
    exact ⟨s, rfl, ⟨by
      obtain ⟨h1, h2, h3, h4, h5⟩ := hg
      exact ⟨h1, h2, h3, h4, h5⟩, fun k => rfl⟩⟩

theorem set_ok (hsz : ∀ r0 : Record K V, 0 < sz r0) (s : KvStore K V)
    (hg : Good sz s) (k : K) (v : V) :
    ∃ s1, KvStore.set sz false (fun _ => false) s k v = (Except.ok (), s1, []) ∧
      Good sz s1 ∧ liveVal sz s1 k = some v ∧
      (∀ k2, k2 ≠ k → liveVal sz s1 k2 = liveVal sz s k2) := by
  obtain ⟨hgar, hwp, hrf, hio, hnd⟩ := hg
  have hfs : fileSize sz s.file = encSize sz s.file.recs := by
    unfold fileSize
    rw [hgar]
    omega
  have hset : KvStore.set sz false (fun _ => false) s k v =
      KvStore.compact_if_stale_threshold_reached sz (fun _ => false)
        ⟨insertIdx s.index k (fileSize sz s.file),
          s.stale_count + (if (lookupIdx s.index k).isSome then 1 else 0),
          s.file_path,
          ⟨s.file.recs ++ [⟨fileSize sz s.file, k, some v⟩], s.file.garbage⟩,
          s.stale_fraction_for_compaction, s.min_records_before_compaction,
          s.uuid_counter⟩ := by
    unfold KvStore.set KvStore.build_output_record KvStore.write_record_to_db
      write_record_to_writer
    simp
  have hg2 : Good sz
      ⟨insertIdx s.index k (fileSize sz s.file),
        s.stale_count + (if (lookupIdx s.index k).isSome then 1 else 0),
        s.file_path,
        ⟨s.file.recs ++ [⟨fileSize sz s.file, k, some v⟩], s.file.garbage⟩,
        s.stale_fraction_for_compaction, s.min_records_before_compaction,
        s.uuid_counter⟩ := by
    refine ⟨hgar, ?_, ?_, ?_, nodupKeys_insertIdx _ _ _ hnd⟩
    · exact wellPlaced_snoc sz hwp (by rw [hfs])
    · show replayFold (s.file.recs ++ [⟨fileSize sz s.file, k, some v⟩]) = _
      rw [replayFold_append, hrf]
      unfold replayStep
      by_cases hki : (lookupIdx s.index k).isSome
      · simp [hki]
      · simp [hki]
    · rw [indexOk_iff]
      intro kv hkv
      rcases mem_insertIdx hkv with hkv1 | hkv1
      · subst hkv1
        refine ⟨⟨fileSize sz s.file, k, some v⟩, ?_, rfl, rfl⟩
        show decodeRecAt sz (s.file.recs ++ [⟨fileSize sz s.file, k, some v⟩]) 0
          (fileSize sz s.file) = _
        rw [hfs]
        exact decodeRecAt_snoc sz hsz _ _
      · obtain ⟨r2, hdec, hkey2, hsome2⟩ := (indexOk_iff sz).mp hio kv hkv1
        exact ⟨r2, decodeRecAt_append_some sz hdec, hkey2, hsome2⟩
  obtain ⟨s1, hrun, hgood1, hlv1⟩ := compact_if_ok sz hsz _ hg2
  refine ⟨s1, by rw [hset, hrun], hgood1, ?_, ?_⟩
  · rw [hlv1 k]
    have h1 : lookupIdx (insertIdx s.index k (fileSize sz s.file)) k =
        some (fileSize sz s.file) := lookupIdx_insertIdx_self _ _ _
    have h2 : decodeRecAt sz (s.file.recs ++ [⟨fileSize sz s.file, k, some v⟩]) 0
        (fileSize sz s.file) = some ⟨fileSize sz s.file, k, some v⟩ := by
      rw [hfs]
      exact decodeRecAt_snoc sz hsz _ _
    simp [liveVal, h1, h2]
  · intro k2 hk2
    rw [hlv1 k2]
    have h1 : lookupIdx (insertIdx s.index k (fileSize sz s.file)) k2 =
        lookupIdx s.index k2 := lookupIdx_insertIdx_ne _ _ _ _ hk2
    cases hL : lookupIdx s.index k2 with
    | none => simp [liveVal, h1, hL]
    | some o =>
      obtain ⟨r2, hdec, hkey2, hsome2⟩ := indexOk_lookup sz hio hL
      simp [liveVal, h1, hL, hdec, decodeRecAt_append_some sz hdec]

theorem remove_ok (hsz : ∀ r0 : Record K V, 0 < sz r0) (s : KvStore K V)
    (hg : Good sz s) (k : K) (hpres : (lookupIdx s.index k).isSome = true) :
    ∃ s1, KvStore.remove sz false (fun _ => false) s k = (Except.ok (), s1, []) ∧
      Good sz s1 ∧ liveVal sz s1 k = none ∧
      (∀ k2, k2 ≠ k → liveVal sz s1 k2 = liveVal sz s k2) := by
  obtain ⟨hgar, hwp, hrf, hio, hnd⟩ := hg
  have hfs : fileSize sz s.file = encSize sz s.file.recs := by
    unfold fileSize
    rw [hgar]
    omega
  have hrem : KvStore.remove sz false (fun _ => false) s k =
      KvStore.compact_if_stale_threshold_reached sz (fun _ => false)
        ⟨eraseIdx s.index k, s.stale_count + 1, s.file_path,
          ⟨s.file.recs ++ [⟨fileSize sz s.file, k, none⟩], s.file.garbage⟩,
          s.stale_fraction_for_compaction, s.min_records_before_compaction,
          s.uuid_counter⟩ := by
    unfold KvStore.remove KvStore.build_output_record KvStore.write_record_to_db
      write_record_to_writer
    simp [hpres]
  have hg2 : Good sz
      ⟨eraseIdx s.index k, s.stale_count + 1, s.file_path,
        ⟨s.file.recs ++ [⟨fileSize sz s.file, k, none⟩], s.file.garbage⟩,
        s.stale_fraction_for_compaction, s.min_records_before_compaction,
        s.uuid_counter⟩ := by
    refine ⟨hgar, ?_, ?_, ?_, nodupKeys_eraseIdx _ _ hnd⟩
    · exact wellPlaced_snoc sz hwp (by rw [hfs])
    · show replayFold (s.file.recs ++ [⟨fileSize sz s.file, k, none⟩]) = _
      rw [replayFold_append, hrf]
      rfl
    · rw [indexOk_iff]
      intro kv hkv
      obtain ⟨r2, hdec, hkey2, hsome2⟩ := (indexOk_iff sz).mp hio kv (mem_eraseIdx hkv)
      exact ⟨r2, decodeRecAt_append_some sz hdec, hkey2, hsome2⟩
  obtain ⟨s1, hrun, hgood1, hlv1⟩ := compact_if_ok sz hsz _ hg2
  refine ⟨s1, by rw [hrem, hrun], hgood1, ?_, ?_⟩
  · rw [hlv1 k]
    have h1 : lookupIdx (eraseIdx s.index k) k = none := lookupIdx_eraseIdx_self _ _ hnd
    simp [liveVal, h1]
  · intro k2 hk2
    rw [hlv1 k2]
    have h1 : lookupIdx (eraseIdx s.index k) k2 = lookupIdx s.index k2 :=
      lookupIdx_eraseIdx_ne _ _ _ hk2
    cases hL : lookupIdx s.index k2 with
    | none => simp [liveVal, h1, hL]
    | some o =>
      obtain ⟨r2, hdec, hkey2, hsome2⟩ := indexOk_lookup sz hio hL
      simp [liveVal, h1, hL, hdec, decodeRecAt_append_some sz hdec]

theorem applyOp_ok (hsz : ∀ r0 : Record K V, 0 < sz r0) {op : Op K V}
    {s s1 : KvStore K V} {u : Unit} (hg : Good sz s)
    (h : applyOp sz op s = (Except.ok u, s1)) :
    Good sz s1 ∧ (∀ k, touches k op = false → liveVal sz s1 k = liveVal sz s k) := by
  cases op with
  | setOp k1 v1 =>
    obtain ⟨s2, hset, hgood2, _, hpres2⟩ := set_ok sz hsz s hg k1 v1
    have happ : applyOp sz (Op.setOp k1 v1) s = (Except.ok (), s2) := by
      simp only [applyOp]
      rw [hset]
    rw [happ] at h
    injection h with h1 h2
    subst h2
    refine ⟨hgood2, ?_⟩
    intro k hk
    simp only [touches, decide_eq_false_iff_not] at hk
    exact hpres2 k (fun hh => hk hh.symm)
  | removeOp k1 =>
    cases hpres : (lookupIdx s.index k1).isSome with
    | true =>
      obtain ⟨s2, hrem, hgood2, _, hpres2⟩ := remove_ok sz hsz s hg k1 hpres
      have happ : applyOp sz (Op.removeOp k1) s = (Except.ok (), s2) := by
        simp only [applyOp]
        rw [hrem]
      rw [happ] at h
      injection h with h1 h2
      subst h2
      refine ⟨hgood2, ?_⟩
      intro k hk
      simp only [touches, decide_eq_false_iff_not] at hk
      exact hpres2 k (fun hh => hk hh.symm)
    | false =>
      have hnone : lookupIdx s.index k1 = none := by
        cases hL : lookupIdx s.index k1 with
        | none => rfl
        | some o => rw [hL] at hpres; simp at hpres
      have happ : applyOp sz (Op.removeOp k1) s =
          (Except.error ErrorKind.KeyNotPresent, s) := by
        simp [applyOp, KvStore.remove, hnone]
      rw [happ] at h
      injection h with h1 h2
      exact absurd h1 (by simp)

theorem runOps_good (hsz : ∀ r0 : Record K V, 0 < sz r0) :
    ∀ (ops : List (Op K V)) (s s1 : KvStore K V), Good sz s →
      runOps sz ops s = some s1 → Good sz s1 := by
  intro ops
  induction ops with
  | nil =>
    intro s s1 hg h
    simp only [runOps, Option.some.injEq] at h
    rw [← h]
    exact hg
  | cons op ops ih =>
    intro s s1 hg h
    unfold runOps at h
    rcases happ : applyOp sz op s with ⟨res, s2⟩
    rw [happ] at h
    cases res with
    | ok u =>
      exact ih s2 s1 (applyOp_ok sz hsz hg happ).1 h
    | error e => simp at h

theorem runOps_untouched (hsz : ∀ r0 : Record K V, 0 < sz r0) (k : K) :
    ∀ (ops : List (Op K V)) (s s1 : KvStore K V), Good sz s →
      runOps sz ops s = some s1 → (∀ op ∈ ops, touches k op = false) →
      liveVal sz s1 k = liveVal sz s k := by
  intro ops
  induction ops with
  | nil =>
    intro s s1 hg h _
    simp only [runOps, Option.some.injEq] at h
    rw [← h]
  | cons op ops ih =>
    intro s s1 hg h hnt
    unfold runOps at h
    rcases happ : applyOp sz op s with ⟨res, s2⟩
    rw [happ] at h
    cases res with
    | ok u =>
      obtain ⟨hg2, hlv2⟩ := applyOp_ok sz hsz hg happ
      rw [ih s2 s1 hg2 h (fun op1 h1 => hnt op1 (List.mem_cons_of_mem _ h1))]
      exact hlv2 k (hnt op (List.mem_cons_self _ _))
    | error e => simp at h

/-! ### A compaction that reports success behaved like the fault-free one, and a
compaction error is always `IoError` -/

theorem walkRecords_success (wfail : Nat → Bool) (idx : List (K × Nat)) :
    ∀ (rs out : List (Record K V)) (nidx : List (K × Nat)) (i : Nat)
      (out1 : List (Record K V)) (nidx1 : List (K × Nat)),
      walkRecords sz wfail idx rs out nidx i = (none, out1, nidx1) →
      walkRecords sz (fun _ => false) idx rs out nidx i = (none, out1, nidx1) := by
  intro rs
  induction rs with
  | nil =>
    intro out nidx i out1 nidx1 h
    exact h
  | cons r rs ih =>
    intro out nidx i out1 nidx1 h
    by_cases hc : lookupIdx idx r.key = some r.db_key
    · cases hwf : wfail i with
      | true =>
        have hstep : walkRecords sz wfail idx (r :: rs) out nidx i =
            (some ErrorKind.IoError, out, nidx) := by
          simp only [walkRecords, if_pos hc, hwf, if_true]
        rw [hstep] at h
        simp at h
      | false =>
        have hstep : walkRecords sz wfail idx (r :: rs) out nidx i =
            walkRecords sz wfail idx rs
              (out ++ [{ db_key := encSize sz out, key := r.key, value := r.value }])
              (insertIdx nidx r.key (encSize sz out)) (i + 1) := by
          simp only [walkRecords, if_pos hc, hwf, Bool.false_eq_true, if_false]
        have hstep2 : walkRecords sz (fun _ => false) idx (r :: rs) out nidx i =
            walkRecords sz (fun _ => false) idx rs
              (out ++ [{ db_key := encSize sz out, key := r.key, value := r.value }])
              (insertIdx nidx r.key (encSize sz out)) (i + 1) := by
          simp only [walkRecords, if_pos hc, Bool.false_eq_true, if_false]
        rw [hstep] at h
        rw [hstep2]
        exact ih _ _ _ _ _ h
    · have hstep : walkRecords sz wfail idx (r :: rs) out nidx i =
          walkRecords sz wfail idx rs out nidx i := by
        simp only [walkRecords, if_neg hc]
      have hstep2 : walkRecords sz (fun _ => false) idx (r :: rs) out nidx i =
          walkRecords sz (fun _ => false) idx rs out nidx i := by
        simp only [walkRecords, if_neg hc]
      rw [hstep] at h
      rw [hstep2]
      exact ih _ _ _ _ _ h

theorem walkRecords_error (wfail : Nat → Bool) (idx : List (K × Nat)) :
    ∀ (rs out : List (Record K V)) (nidx : List (K × Nat)) (i : Nat)
      (ek : ErrorKind) (out1 : List (Record K V)) (nidx1 : List (K × Nat)),
      walkRecords sz wfail idx rs out nidx i = (some ek, out1, nidx1) →
      ek = ErrorKind.IoError := by
  intro rs
  induction rs with
  | nil =>
    intro out nidx i ek out1 nidx1 h
    simp [walkRecords] at h
  | cons r rs ih =>
    intro out nidx i ek out1 nidx1 h
    by_cases hc : lookupIdx idx r.key = some r.db_key
    · cases hwf : wfail i with
      | true =>
        have hstep : walkRecords sz wfail idx (r :: rs) out nidx i =
            (some ErrorKind.IoError, out, nidx) := by
          simp only [walkRecords, if_pos hc, hwf, if_true]
        rw [hstep] at h
        simp only [Prod.mk.injEq, Option.some.injEq] at h
        exact h.1.symm
      | false =>
        have hstep : walkRecords sz wfail idx (r :: rs) out nidx i =
            walkRecords sz wfail idx rs
              (out ++ [{ db_key := encSize sz out, key := r.key, value := r.value }])
              (insertIdx nidx r.key (encSize sz out)) (i + 1) := by
          simp only [walkRecords, if_pos hc, hwf, Bool.false_eq_true, if_false]
        rw [hstep] at h
        exact ih _ _ _ _ _ _ h
    · have hstep : walkRecords sz wfail idx (r :: rs) out nidx i =
          walkRecords sz wfail idx rs out nidx i := by
        simp only [walkRecords, if_neg hc]
      rw [hstep] at h
      exact ih _ _ _ _ _ _ h

theorem copy_success_nofail {wfail : Nat → Bool} {s : KvStore K V} {cp : DbPath}
    {res : KvStore K V × (DbFile K V × List (K × Nat) × DbPath)}
    (h : KvStore.copy_active_records_to_compaction_file_and_update_indexes sz wfail s cp =
      Except.ok res) :
    KvStore.copy_active_records_to_compaction_file_and_update_indexes sz (fun _ => false)
      s cp = Except.ok res := by
  unfold KvStore.copy_active_records_to_compaction_file_and_update_indexes at h ⊢
  rcases hW : walkRecords sz wfail s.index s.file.recs [] [] 0 with ⟨e, o1, n1⟩
  rw [hW] at h
  cases e with
  | some ek => simp at h
  | none =>
    rw [walkRecords_success sz wfail s.index _ _ _ _ _ _ hW]
    exact h

theorem compact_success_nofail {wfail : Nat → Bool} {s s1 : KvStore K V}
    {left : List (DbPath × DbFile K V)}
    (h : KvStore.compact sz wfail s = (Except.ok (), s1, left)) :
    KvStore.compact sz (fun _ => false) s = (Except.ok (), s1, left) := by
  unfold KvStore.compact at h ⊢
  dsimp only at h ⊢
  cases hC : KvStore.copy_active_records_to_compaction_file_and_update_indexes sz wfail
      { s with uuid_counter := s.uuid_counter + 1 }
      (make_next_db_log_path s.file_path s.uuid_counter) with
  | error ep =>
    rw [hC] at h
    simp at h
  | ok res =>
    rw [hC] at h
    rw [copy_success_nofail sz hC]
    exact h

theorem get_congr {s1 s2 : KvStore K V} (h1 : s1.index = s2.index)
    (h2 : s1.file = s2.file) (k : K) : KvStore.get sz s1 k = KvStore.get sz s2 k := by
  unfold KvStore.get KvStore.read_next_record_value KvStore.read_next_record
  rw [h1, h2]

theorem good_fresh (dir : String) (entries : List (DirEntry K V)) (n : Nat) :
    Good sz (KvStore.new dir entries n) := good_new sz dir entries n

/-! ### The claims -/

/-- Claim C1: for every key `k` and value `v`, after `set(k, v)` returns success
on a store satisfying the representation invariant, a subsequent `get(k)`
returns `Ok(Some v)`, and this holds across any further successful operations
that do not `set` or `remove` the same key. -/
theorem C1_set_then_get_roundtrip (hsz : ∀ r0 : Record K V, 0 < sz r0)
    (s s1 s2 : KvStore K V) (k : K) (v : V) (ops : List (Op K V))
    (hg : Good sz s)
    (hset : applyOp sz (Op.setOp k v) s = (Except.ok (), s1))
    (hrun : runOps sz ops s1 = some s2)
    (hnt : ∀ op ∈ ops, touches k op = false) :
    KvStore.get sz s2 k = Except.ok (some v) := by
  obtain ⟨s1', hset', hgood1, hlv1, _⟩ := set_ok sz hsz s hg k v
  have happ : applyOp sz (Op.setOp k v) s = (Except.ok (), s1') := by
    simp only [applyOp]
    rw [hset']
  rw [happ] at hset
  injection hset with h1 h2
  subst h2
  have hg2 := runOps_good sz hsz ops _ s2 hgood1 hrun
  have hlv := runOps_untouched sz hsz k ops _ s2 hgood1 hrun hnt
  rw [get_eq_liveVal sz s2 hg2 k, hlv, hlv1]

/-- Claim C2: a log produced by a sequence of successful operations starting
from a fresh store replays, during `open` on a directory whose newest log holds
that file, to exactly the producer's in-memory index and stale counter.  A
replayed write that displaces an entry counts one stale record, and a replayed
tombstone deletes the entry and counts one stale record. -/
theorem C2_open_replay_reconstructs_state (hsz : ∀ r0 : Record K V, 0 < sz r0)
    (dir0 dir1 : String) (entries0 : List (DirEntry K V)) (n0 : Nat)
    (ops : List (Op K V)) (s : KvStore K V)
    (hrun : runOps sz ops (KvStore.new dir0 entries0 n0) = some s)
    (entries1 : List (DirEntry K V)) (n1 : Nat) (e : DirEntry K V)
    (hlatest : latest_log_for_dir entries1 = some e)
    (hcontent : e.content = s.file) :
    (∃ s1, KvStore.openStore dir1 entries1 n1 = Except.ok s1 ∧
      s1.index = s.index ∧ s1.stale_count = s.stale_count) ∧
    (∀ (idx : List (K × Nat)) (st : Nat) (r0 : Record K V),
      r0.value.isSome = true → (lookupIdx idx r0.key).isSome = true →
      replayStep (idx, st) r0 = (insertIdx idx r0.key r0.db_key, st + 1)) ∧
    (∀ (idx : List (K × Nat)) (st : Nat) (r0 : Record K V),
      r0.value = none → replayStep (idx, st) r0 = (eraseIdx idx r0.key, st + 1)) := by
  refine ⟨?_, ?_, ?_⟩
  · have hg := runOps_good sz hsz ops _ s (good_fresh sz dir0 entries0 n0) hrun
    obtain ⟨hgar, hwp, hrf, hio, hnd⟩ := hg
    refine ⟨⟨s.index, s.stale_count, ⟨dir1, e.stem, e.ext⟩, s.file,
      (1 : ℚ) / 4, 100, n1⟩, ?_, rfl, rfl⟩
    unfold KvStore.openStore use_existing_or_create_new_db_log_path
    rw [hlatest]
    unfold KvStore.init_self open_db_reader_and_writer KvStore.load_index
    dsimp only
    rw [hcontent]
    simp only [Bool.false_eq_true, if_false, Option.getD_some]
    rw [if_pos hgar]
    dsimp only
    rw [hrf]
  · intro idx st r0 hv hlk
    obtain ⟨v, hv1⟩ := Option.isSome_iff_exists.mp hv
    unfold replayStep
    rw [hv1]
    simp [hlk]
  · intro idx st r0 hv
    unfold replayStep
    rw [hv]

/-- Claim C3: after a successful compaction on a store satisfying the
representation invariant, the live bindings observable via `get` are unchanged
and the index size is preserved, the stale counter is zero, the new log holds
exactly one record per live key with no tombstone, every record decodes at the
offset stored in its `db_key`, and the store's path carries the `.log`
extension. -/
theorem C3_compaction_postconditions (hsz : ∀ r0 : Record K V, 0 < sz r0)
    (wfail : Nat → Bool) (s s1 : KvStore K V) (left : List (DbPath × DbFile K V))
    (hg : Good sz s)
    (hcomp : KvStore.compact sz wfail s = (Except.ok (), s1, left)) :
    (∀ k, KvStore.get sz s1 k = KvStore.get sz s k) ∧
    s1.index.length = s.index.length ∧
    s1.stale_count = 0 ∧
    s1.file.recs.length = s1.index.length ∧
    (∀ r1 ∈ s1.file.recs, r1.value.isSome = true) ∧
    (∀ o r1, decodeRecAt sz s1.file.recs 0 o = some r1 → r1.db_key = o) ∧
    s1.file_path.ext = "log" := by
  have hnf := compact_success_nofail sz hcomp
  obtain ⟨s1', hcomp', hgood1, hlv, hst, hilen, hrlen, hgar1, hsome1, hwp1, hext, _, _⟩ :=
    compact_ok sz hsz s hg
  rw [hcomp'] at hnf
  injection hnf with h1 h2
  injection h2 with h2a h2b
  subst h2a
  refine ⟨?_, hilen, hst, hrlen, hsome1, ?_, hext⟩
  · intro k
    rw [get_eq_liveVal sz s1' hgood1 k, get_eq_liveVal sz s ⟨hg.1, hg.2.1, hg.2.2.1,
      hg.2.2.2.1, hg.2.2.2.2⟩ k, hlv k]
  · intro o r1 hd
    exact decodeRecAt_db_key sz hwp1 hd

/-- Claim C4: when compaction fails while walking the old log and rewriting live
records (an injected write fault or the structural decode failure of a corrupt
log tail), the partially written compact file is deleted, `IoError` is
surfaced, and the store's index, stale counter, file path, file contents and
every observable `get` result are unchanged. -/
theorem C4_failed_compaction_rollback (wfail : Nat → Bool)
    (s s1 : KvStore K V) (ek : ErrorKind) (left : List (DbPath × DbFile K V))
    (hcomp : KvStore.compact sz wfail s = (Except.error ek, s1, left)) :
    ek = ErrorKind.IoError ∧ left = [] ∧
    s1.index = s.index ∧ s1.stale_count = s.stale_count ∧
    s1.file_path = s.file_path ∧ s1.file = s.file ∧
    (∀ k, KvStore.get sz s1 k = KvStore.get sz s k) := by
  unfold KvStore.compact KvStore.copy_active_records_to_compaction_file_and_update_indexes
    at hcomp
  dsimp only at hcomp
  rcases hW : walkRecords sz wfail s.index s.file.recs [] [] 0 with ⟨e, o1, n1⟩
  rw [hW] at hcomp
  cases e with
  | some ek1 =>
    have hio := walkRecords_error sz wfail s.index _ _ _ _ _ _ _ hW
    simp only [Prod.mk.injEq] at hcomp
    obtain ⟨hek, hs1, hleft⟩ := hcomp
    injection hek with hek
    rw [← hs1, ← hleft, ← hek, hio]
    refine ⟨rfl, ?_, rfl, rfl, rfl, rfl, fun k => get_congr sz rfl rfl k⟩
    simp [removeFileL]
  | none =>
    by_cases hgar : s.file.garbage = 0
    · rw [if_pos hgar] at hcomp
      simp at hcomp
    · rw [if_neg hgar] at hcomp
      simp only [Prod.mk.injEq] at hcomp
      obtain ⟨hek, hs1, hleft⟩ := hcomp
      injection hek with hek
      rw [← hs1, ← hleft, ← hek]
      refine ⟨rfl, ?_, rfl, rfl, rfl, rfl, fun k => get_congr sz rfl rfl k⟩
      simp [removeFileL]

/-- Claim C5: reading the next record returns `None` exactly when the stream is
cleanly at end-of-log (no bytes remain past the read position), and a
structural decode failure before end-of-log yields `IoError` rather than
`None`. -/
theorem C5_decode_none_only_clean_eof (hsz : ∀ r0 : Record K V, 0 < sz r0)
    (f : DbFile K V) (pos : Nat) :
    (KvStore.read_next_record sz f pos = Except.ok none ↔ fileSize sz f ≤ pos) ∧
    (decodeRecAt sz f.recs 0 pos = none → pos < fileSize sz f →
      KvStore.read_next_record sz f pos = Except.error ErrorKind.IoError) := by
  constructor
  · constructor
    · intro h
      unfold KvStore.read_next_record at h
      cases hdec : decodeRecAt sz f.recs 0 pos with
      | some r => rw [hdec] at h; simp at h
      | none =>
        rw [hdec] at h
        by_cases hle : fileSize sz f ≤ pos
        · exact hle
        · rw [if_neg hle] at h
          simp at h
    · intro h
      have hdec : decodeRecAt sz f.recs 0 pos = none := by
        apply decodeRecAt_none_of_le sz hsz
        have : encSize sz f.recs ≤ fileSize sz f := by
          unfold fileSize
          omega
        omega
      unfold KvStore.read_next_record
      rw [hdec, if_pos h]
  · intro h1 h2
    unfold KvStore.read_next_record
    rw [h1, if_neg (not_le.mpr h2)]

/-- Claim C6: when the record encode fails mid-write, the writer is seeked back
to the pre-write offset and the file truncated to that length before `IoError`
is returned, so a failed `set` or `remove` leaves the store (file contents
included) exactly as it was; at the writer level, a failed append at the end of
the file leaves the file unchanged. -/
theorem C6_truncate_on_write_failure (wfail : Nat → Bool) (s : KvStore K V)
    (k : K) (v : V) :
    KvStore.set sz true wfail s k v = (Except.error ErrorKind.IoError, s, []) ∧
    ((lookupIdx s.index k).isSome = true →
      KvStore.remove sz true wfail s k = (Except.error ErrorKind.IoError, s, [])) ∧
    (∀ (f : DbFile K V) (r0 : Record K V), r0.db_key = fileSize sz f →
      write_record_to_writer sz true r0 f = (Except.error ErrorKind.IoError, f)) := by
  refine ⟨?_, ?_, ?_⟩
  · unfold KvStore.set KvStore.build_output_record KvStore.write_record_to_db
      write_record_to_writer
    simp [setLen_fileSize]
  · intro hpres
    unfold KvStore.remove KvStore.build_output_record KvStore.write_record_to_db
      write_record_to_writer
    simp [hpres, setLen_fileSize]
  · intro f r0 hdb
    unfold write_record_to_writer
    rw [if_pos rfl, hdb, setLen_fileSize]

/-- Claim C7: on every store reachable by successful operations from a store
satisfying the representation invariant, any record decoded from offset `o` of
the log carries `db_key = o` (each appended record's `db_key` is the offset at
which it begins). -/
theorem C7_db_key_equals_offset (hsz : ∀ r0 : Record K V, 0 < sz r0)
    (s0 s : KvStore K V) (ops : List (Op K V)) (hg : Good sz s0)
    (hrun : runOps sz ops s0 = some s) :
    ∀ (o : Nat) (r1 : Record K V),
      decodeRecAt sz s.file.recs 0 o = some r1 → r1.db_key = o := by
  have hgood := runOps_good sz hsz ops s0 s hg hrun
  exact fun o r1 hd => decodeRecAt_db_key sz hgood.2.1 hd

/-- Claim C8: removing a key absent from the index returns `KeyNotPresent`,
appends nothing to the log (file and file size unchanged), and leaves the index
and the stale counter unchanged. -/
theorem C8_remove_absent_key (efail : Bool) (wfail : Nat → Bool)
    (s : KvStore K V) (k : K) (habs : lookupIdx s.index k = none) :
    KvStore.remove sz efail wfail s k = (Except.error ErrorKind.KeyNotPresent, s, []) ∧
    (KvStore.remove sz efail wfail s k).2.1.file = s.file ∧
    fileSize sz (KvStore.remove sz efail wfail s k).2.1.file = fileSize sz s.file ∧
    (KvStore.remove sz efail wfail s k).2.1.index = s.index ∧
    (KvStore.remove sz efail wfail s k).2.1.stale_count = s.stale_count := by
  have h : KvStore.remove sz efail wfail s k =
      (Except.error ErrorKind.KeyNotPresent, s, []) := by
    unfold KvStore.remove
    rw [habs]
    rfl
  rw [h]
  exact ⟨rfl, rfl, rfl, rfl, rfl⟩

/-- Claim C9: `get` on a key absent from the index returns `Ok(None)`, and `get`
never returns the `KeyNotPresent` error. -/
theorem C9_get_absent_none (s : KvStore K V) (k : K) :
    (lookupIdx s.index k = none → KvStore.get sz s k = Except.ok none) ∧
    KvStore.get sz s k ≠ Except.error ErrorKind.KeyNotPresent := by
  constructor
  · intro h
    unfold KvStore.get
    rw [h]
  · cases hL : lookupIdx s.index k with
    | none =>
      simp [KvStore.get, hL]
    | some o =>
      cases hdec : decodeRecAt sz s.file.recs 0 o with
      | some r =>
        simp [KvStore.get, KvStore.read_next_record_value, KvStore.read_next_record, hL, hdec]
      | none =>
        by_cases hle : fileSize sz s.file ≤ o
        · simp [KvStore.get, KvStore.read_next_record_value, KvStore.read_next_record,
            hL, hdec, hle]
        · simp [KvStore.get, KvStore.read_next_record_value, KvStore.read_next_record,
            hL, hdec, hle]

/-- Claim C10: `KvStore::new` selects the same log file `open` would (the newest
matching log, or a freshly minted path), but opens it with truncation and skips
replay: the resulting store has an empty index, a zero stale counter and an
empty file, `get` returns `Ok(None)` for every key, and when the directory held
a non-empty newest log at the chosen path, that log's contents are destroyed. -/
theorem C10_new_truncates_and_skips_replay (dir : String)
    (entries : List (DirEntry K V)) (n : Nat) :
    (KvStore.new dir entries n).file_path =
      (use_existing_or_create_new_db_log_path dir entries n).1 ∧
    (KvStore.new dir entries n).index = [] ∧
    (KvStore.new dir entries n).stale_count = 0 ∧
    (KvStore.new dir entries n).file = ⟨[], 0⟩ ∧
    (∀ k, KvStore.get sz (KvStore.new dir entries n) k = Except.ok none) ∧
    (∀ e, latest_log_for_dir entries = some e →
      (KvStore.new dir entries n).file_path = ⟨dir, e.stem, e.ext⟩ ∧
      (e.content ≠ ⟨[], 0⟩ → (KvStore.new dir entries n).file ≠ e.content)) := by
  unfold KvStore.new KvStore.init_self open_db_reader_and_writer
  dsimp only
  refine ⟨rfl, rfl, rfl, by simp, ?_, ?_⟩
  · intro k
    unfold KvStore.get
    dsimp only
    simp [lookupIdx]
  · intro e hlatest
    unfold use_existing_or_create_new_db_log_path
    rw [hlatest]
    refine ⟨rfl, ?_⟩
    intro hne heq
    simp only [if_pos rfl] at heq
    exact hne heq.symm

/-! ### Concrete witnesses -/

theorem C1_set_then_get_roundtrip_witness :
    KvStore.get szOne ⟨[(5, 0), (7, 1)], 0,
        ⟨"d", "kvsdb-00000000000000000000000000000000", "log"⟩,
        ⟨[⟨0, 5, some 50⟩, ⟨1, 7, some 70⟩], 0⟩, (1 : ℚ)/4, 100, 1⟩ 5 =
      Except.ok (some 50) :=
  C1_set_then_get_roundtrip szOne (fun _ => Nat.one_pos) (KvStore.new "d" [] 0)
    ⟨[(5, 0)], 0, ⟨"d", "kvsdb-00000000000000000000000000000000", "log"⟩,
      ⟨[⟨0, 5, some 50⟩], 0⟩, (1 : ℚ)/4, 100, 1⟩
    ⟨[(5, 0), (7, 1)], 0, ⟨"d", "kvsdb-00000000000000000000000000000000", "log"⟩,
      ⟨[⟨0, 5, some 50⟩, ⟨1, 7, some 70⟩], 0⟩, (1 : ℚ)/4, 100, 1⟩
    5 50 [Op.setOp 7 70] (by decide) rfl rfl (by decide)

theorem C2_open_replay_reconstructs_state_witness :
    ∃ s1, KvStore.openStore "d2"
        [⟨"kvsdb-00000000000000000000000000000000", "log", 5,
          ⟨[⟨0, 1, some 10⟩, ⟨1, 1, some 11⟩, ⟨2, 1, none⟩, ⟨3, 2, some 20⟩], 0⟩⟩] 7 =
        Except.ok s1 ∧ s1.index = [(2, 3)] ∧ s1.stale_count = 2 :=
  (C2_open_replay_reconstructs_state szOne (fun _ => Nat.one_pos) "d" "d2" [] 0
    [Op.setOp 1 10, Op.setOp 1 11, Op.removeOp 1, Op.setOp 2 20]
    ⟨[(2, 3)], 2, ⟨"d", "kvsdb-00000000000000000000000000000000", "log"⟩,
      ⟨[⟨0, 1, some 10⟩, ⟨1, 1, some 11⟩, ⟨2, 1, none⟩, ⟨3, 2, some 20⟩], 0⟩,
      (1 : ℚ)/4, 100, 1⟩
    rfl
    [⟨"kvsdb-00000000000000000000000000000000", "log", 5,
      ⟨[⟨0, 1, some 10⟩, ⟨1, 1, some 11⟩, ⟨2, 1, none⟩, ⟨3, 2, some 20⟩], 0⟩⟩] 7
    ⟨"kvsdb-00000000000000000000000000000000", "log", 5,
      ⟨[⟨0, 1, some 10⟩, ⟨1, 1, some 11⟩, ⟨2, 1, none⟩, ⟨3, 2, some 20⟩], 0⟩⟩
    (by decide) (by decide)).1

theorem C3_compaction_postconditions_witness :
    (⟨[(5, 0), (7, 1)], 0, ⟨"d", "kvsdb-00000000000000000000000000000001", "log"⟩,
        ⟨[⟨0, 5, some 50⟩, ⟨1, 7, some 70⟩], 0⟩, (1 : ℚ)/4, 100, 2⟩ :
        KvStore Nat Nat).stale_count = 0 ∧
    (⟨[(5, 0), (7, 1)], 0, ⟨"d", "kvsdb-00000000000000000000000000000001", "log"⟩,
        ⟨[⟨0, 5, some 50⟩, ⟨1, 7, some 70⟩], 0⟩, (1 : ℚ)/4, 100, 2⟩ :
        KvStore Nat Nat).file.recs.length =
      (⟨[(5, 0), (7, 1)], 0, ⟨"d", "kvsdb-00000000000000000000000000000001", "log"⟩,
        ⟨[⟨0, 5, some 50⟩, ⟨1, 7, some 70⟩], 0⟩, (1 : ℚ)/4, 100, 2⟩ :
        KvStore Nat Nat).index.length ∧
    (⟨[(5, 0), (7, 1)], 0, ⟨"d", "kvsdb-00000000000000000000000000000001", "log"⟩,
        ⟨[⟨0, 5, some 50⟩, ⟨1, 7, some 70⟩], 0⟩, (1 : ℚ)/4, 100, 2⟩ :
        KvStore Nat Nat).file_path.ext = "log" := by
  have h := C3_compaction_postconditions szOne (fun _ => Nat.one_pos) (fun _ => false)
    ⟨[(5, 0), (7, 1)], 0, ⟨"d", "kvsdb-00000000000000000000000000000000", "log"⟩,
      ⟨[⟨0, 5, some 50⟩, ⟨1, 7, some 70⟩], 0⟩, (1 : ℚ)/4, 100, 1⟩
    ⟨[(5, 0), (7, 1)], 0, ⟨"d", "kvsdb-00000000000000000000000000000001", "log"⟩,
      ⟨[⟨0, 5, some 50⟩, ⟨1, 7, some 70⟩], 0⟩, (1 : ℚ)/4, 100, 2⟩
    [] (by decide) rfl
  exact ⟨h.2.2.1, h.2.2.2.1, h.2.2.2.2.2.2⟩

theorem C4_failed_compaction_rollback_witness :
    KvStore.compact szOne (fun _ => false)
        (⟨[], 0, ⟨"d", "kvsdb-00000000000000000000000000000000", "log"⟩, ⟨[], 1⟩,
          (1 : ℚ)/4, 100, 1⟩ : KvStore Nat Nat) =
      (Except.error ErrorKind.IoError,
        ⟨[], 0, ⟨"d", "kvsdb-00000000000000000000000000000000", "log"⟩, ⟨[], 1⟩,
          (1 : ℚ)/4, 100, 2⟩, []) ∧
    (⟨[], 0, ⟨"d", "kvsdb-00000000000000000000000000000000", "log"⟩, ⟨[], 1⟩,
        (1 : ℚ)/4, 100, 2⟩ : KvStore Nat Nat).file =
      (⟨[], 0, ⟨"d", "kvsdb-00000000000000000000000000000000", "log"⟩, ⟨[], 1⟩,
        (1 : ℚ)/4, 100, 1⟩ : KvStore Nat Nat).file := by
  refine ⟨rfl, ?_⟩
  have h := C4_failed_compaction_rollback szOne (fun _ => false)
    ⟨[], 0, ⟨"d", "kvsdb-00000000000000000000000000000000", "log"⟩, ⟨[], 1⟩,
      (1 : ℚ)/4, 100, 1⟩
    ⟨[], 0, ⟨"d", "kvsdb-00000000000000000000000000000000", "log"⟩, ⟨[], 1⟩,
      (1 : ℚ)/4, 100, 2⟩
    ErrorKind.IoError [] rfl
  exact h.2.2.2.2.2.1

theorem C5_decode_none_only_clean_eof_witness :
    KvStore.read_next_record szOne (⟨[⟨0, 1, some 2⟩], 1⟩ : DbFile Nat Nat) 2 =
      Except.ok none ∧
    KvStore.read_next_record szOne (⟨[⟨0, 1, some 2⟩], 1⟩ : DbFile Nat Nat) 1 =
      Except.error ErrorKind.IoError :=
  ⟨(C5_decode_none_only_clean_eof szOne (fun _ => Nat.one_pos)
      ⟨[⟨0, 1, some 2⟩], 1⟩ 2).1.mpr (by decide),
    (C5_decode_none_only_clean_eof szOne (fun _ => Nat.one_pos)
      ⟨[⟨0, 1, some 2⟩], 1⟩ 1).2 (by decide) (by decide)⟩

theorem C6_truncate_on_write_failure_witness :
    KvStore.set szOne true (fun _ => false) (KvStore.new "d" [] 0) 1 2 =
      (Except.error ErrorKind.IoError, KvStore.new "d" [] 0, []) :=
  (C6_truncate_on_write_failure szOne (fun _ => false) (KvStore.new "d" [] 0) 1 2).1

theorem C7_db_key_equals_offset_witness :
    (⟨0, 1, some 10⟩ : Record Nat Nat).db_key = 0 :=
  C7_db_key_equals_offset szOne (fun _ => Nat.one_pos) (KvStore.new "d" [] 0)
    ⟨[(1, 0)], 0, ⟨"d", "kvsdb-00000000000000000000000000000000", "log"⟩,
      ⟨[⟨0, 1, some 10⟩], 0⟩, (1 : ℚ)/4, 100, 1⟩
    [Op.setOp 1 10] (by decide) rfl 0 ⟨0, 1, some 10⟩ (by decide)

theorem C8_remove_absent_key_witness :
    KvStore.remove szOne false (fun _ => false)
        (⟨[(1, 0)], 0, ⟨"d", "kvsdb-00000000000000000000000000000000", "log"⟩,
          ⟨[⟨0, 1, some 10⟩], 0⟩, (1 : ℚ)/4, 100, 1⟩ : KvStore Nat Nat) 9 =
      (Except.error ErrorKind.KeyNotPresent,
        ⟨[(1, 0)], 0, ⟨"d", "kvsdb-00000000000000000000000000000000", "log"⟩,
          ⟨[⟨0, 1, some 10⟩], 0⟩, (1 : ℚ)/4, 100, 1⟩, []) :=
  (C8_remove_absent_key szOne false (fun _ => false)
    ⟨[(1, 0)], 0, ⟨"d", "kvsdb-00000000000000000000000000000000", "log"⟩,
      ⟨[⟨0, 1, some 10⟩], 0⟩, (1 : ℚ)/4, 100, 1⟩ 9 (by decide)).1

theorem C9_get_absent_none_witness :
    KvStore.get szOne
        (⟨[(1, 0)], 0, ⟨"d", "kvsdb-00000000000000000000000000000000", "log"⟩,
          ⟨[⟨0, 1, some 10⟩], 0⟩, (1 : ℚ)/4, 100, 1⟩ : KvStore Nat Nat) 9 =
      Except.ok none ∧
    KvStore.get szOne
        (⟨[(1, 0)], 0, ⟨"d", "kvsdb-00000000000000000000000000000000", "log"⟩,
          ⟨[⟨0, 1, some 10⟩], 0⟩, (1 : ℚ)/4, 100, 1⟩ : KvStore Nat Nat) 9 ≠
      Except.error ErrorKind.KeyNotPresent :=
  ⟨(C9_get_absent_none szOne
      ⟨[(1, 0)], 0, ⟨"d", "kvsdb-00000000000000000000000000000000", "log"⟩,
        ⟨[⟨0, 1, some 10⟩], 0⟩, (1 : ℚ)/4, 100, 1⟩ 9).1 (by decide),
    (C9_get_absent_none szOne
      ⟨[(1, 0)], 0, ⟨"d", "kvsdb-00000000000000000000000000000000", "log"⟩,
        ⟨[⟨0, 1, some 10⟩], 0⟩, (1 : ℚ)/4, 100, 1⟩ 9).2⟩

theorem C10_new_truncates_and_skips_replay_witness :
    (KvStore.new "d"
      [⟨"kvsdb-00000000000000000000000000000000", "log", 3,
        ⟨[⟨0, 1, some 5⟩], 0⟩⟩] 0).index = ([] : List (Nat × Nat)) ∧
    (KvStore.new "d"
      [⟨"kvsdb-00000000000000000000000000000000", "log", 3,
        ⟨[⟨0, 1, some 5⟩], 0⟩⟩] 0).stale_count = 0 ∧
    (KvStore.new "d"
      [⟨"kvsdb-00000000000000000000000000000000", "log", 3,
        ⟨[⟨0, 1, some 5⟩], 0⟩⟩] 0).file = (⟨[], 0⟩ : DbFile Nat Nat) ∧
    KvStore.get szOne (KvStore.new "d"
      [⟨"kvsdb-00000000000000000000000000000000", "log", 3,
        ⟨[⟨0, 1, some 5⟩], 0⟩⟩] 0) 4 = Except.ok none ∧
    (KvStore.new "d"
      [⟨"kvsdb-00000000000000000000000000000000", "log", 3,
        ⟨[⟨0, 1, some 5⟩], 0⟩⟩] 0).file ≠ (⟨[⟨0, 1, some 5⟩], 0⟩ : DbFile Nat Nat) := by
  have h := C10_new_truncates_and_skips_replay szOne "d"
    [⟨"kvsdb-00000000000000000000000000000000", "log", 3, ⟨[⟨0, 1, some 5⟩], 0⟩⟩] 0
  exact ⟨h.2.1, h.2.2.1, h.2.2.2.1, h.2.2.2.2.1 4,
    (h.2.2.2.2.2 ⟨"kvsdb-00000000000000000000000000000000", "log", 3,
      ⟨[⟨0, 1, some 5⟩], 0⟩⟩ (by decide)).2 (by decide)⟩

end KvsModel
